import Mathlib

/-!
Verification of the weekly-plan Excel add-in against its specification.

The development shallowly embeds the add-in's pure cell logic:
sheets are modelled as functions from (column, row) to cell values,
numbers as exact rationals, and every event handler as a pure state
transformer mirroring the JavaScript source
(`src/taskpane/js/utils.js`, `weekly.js`, `habits.js`, `events.js`).
-/

/-- A spreadsheet cell value as delivered by the host API: an empty cell
(read back as the empty string), a number, or a text. -/
inductive CellVal where
  | empty
  | num (q : ℚ)
  | str (s : String)
deriving DecidableEq

/-- JS truthiness of a loaded cell value: the empty cell / empty string and 0
are falsy, everything else is truthy. -/
def truthy : CellVal → Bool
  | CellVal.empty => false
  | CellVal.num q => decide (q ≠ 0)
  | CellVal.str s => decide (s ≠ "")

/-- The test `v !== '' && v !== null` applied throughout the source to loaded
cell values (note that the number 0 passes this test). -/
def isNonEmptyCell (v : CellVal) : Bool :=
  decide (v ≠ CellVal.empty) && decide (v ≠ CellVal.str "")

/-- Numeric value of a decimal digit character. -/
def digitVal (c : Char) : Nat := c.toNat - 48

/-- Value of a string of decimal digits (most significant first). -/
def digitsToNat (l : List Char) : Nat := l.foldl (fun a c => a * 10 + digitVal c) 0

/-- Longest run of decimal digits at the head of a character list. -/
def leadingDigits (l : List Char) : List Char := l.takeWhile Char.isDigit

/-- Model of JS `parseInt` on a string: parse a leading run of digits,
NaN (`none`) if there is none.  The workbook only ever feeds unsigned
decimal integers to `parseInt`. -/
def parseIntChars (l : List Char) : Option ℤ :=
  if (leadingDigits l).isEmpty then none else some ((digitsToNat (leadingDigits l) : ℤ))

/-- Model of JS `parseFloat` on a string: parse a leading unsigned decimal
literal `digits[.digits]`, NaN (`none`) otherwise.  The workbook only ever
feeds unsigned decimal literals to `parseFloat`. -/
def parseFloatChars (l : List Char) : Option ℚ :=
  let ds := leadingDigits l
  match l.drop ds.length with
  | '.' :: r2 =>
    let fs := leadingDigits r2
    if ds.isEmpty && fs.isEmpty then none
    else some ((digitsToNat ds : ℚ) + (digitsToNat fs : ℚ) / (10 : ℚ) ^ fs.length)
  | _ => if ds.isEmpty then none else some ((digitsToNat ds : ℚ))

/-- Truncation toward zero, as JS `parseInt` applied to a number. -/
def ratTrunc (q : ℚ) : ℤ := if 0 ≤ q then ⌊q⌋ else -⌊-q⌋

/-- JS `parseFloat` on a loaded cell value; `none` models NaN. -/
def jsParseFloatVal : CellVal → Option ℚ
  | CellVal.empty => none
  | CellVal.num q => some q
  | CellVal.str s => parseFloatChars s.data

/-- The idiom `parseFloat(v) || d` from the source: NaN and 0 both fall back
to the default `d`. -/
def jsParseFloatOr (d : ℚ) (v : CellVal) : ℚ :=
  match jsParseFloatVal v with
  | none => d
  | some q => if q = 0 then d else q

/-- JS `parseInt` on a loaded cell value; `none` models NaN. -/
def jsParseIntVal : CellVal → Option ℤ
  | CellVal.empty => none
  | CellVal.num q => some (ratTrunc q)
  | CellVal.str s => parseIntChars s.data

/-- The idiom `parseInt(v) || d` from the source. -/
def jsParseIntOr (d : ℤ) (v : CellVal) : ℤ :=
  match jsParseIntVal v with
  | none => d
  | some z => if z = 0 then d else z

/-- Decimal rendering of an integer, as JS `String(n)` for integral numbers. -/
def intStr (n : ℤ) : String := if 0 ≤ n then Nat.repr n.toNat else "-" ++ Nat.repr (-n).toNat

/-- JS `String(v)` on a loaded cell value.  Exact for empty cells, texts and
integral numbers, which are the only values the modelled flows convert;
a non-integral rational is rendered as a fraction. -/
def jsToString : CellVal → String
  | CellVal.empty => ""
  | CellVal.str s => s
  | CellVal.num q => if q.den = 1 then intStr q.num else intStr q.num ++ "/" ++ Nat.repr q.den

/-- The idiom `String(v || '')` from the source. -/
def jsStringOrEmpty (v : CellVal) : String := if truthy v then jsToString v else ""

/-- JS `s.padStart(2, '0')`. -/
def padStart2 (s : String) : String :=
  if 2 ≤ s.length then s else String.mk (List.replicate (2 - s.length) '0') ++ s

/-- `columnLetterToIndex` from utils.js: plain base-26 accumulation of
`charCode - 'A'` over the letters (so 'A' contributes 0 at every position). -/
def columnLetterToIndex (s : String) : Nat :=
  s.data.foldl (fun acc c => acc * 26 + (c.toNat - 65)) 0

/-- Loop body of `indexToColumnLetter` from utils.js, written with explicit
fuel; the JS loop `while (index >= 0) { ...; index = floor(index/26) - 1 }`
strictly decreases `index`, so fuel `i + 1` always suffices. -/
def indexToColumnLetterAux : Nat → Nat → String
  | 0, _ => ""
  | fuel + 1, i =>
    if i < 26 then String.singleton (Char.ofNat (i % 26 + 65))
    else indexToColumnLetterAux fuel (i / 26 - 1) ++ String.singleton (Char.ofNat (i % 26 + 65))

/-- `indexToColumnLetter` from utils.js: bijective base-26 rendering
(subtract one before each division step). -/
def indexToColumnLetter (i : Nat) : String := indexToColumnLetterAux (i + 1) i

/-- Result record of `parseAddress` from utils.js (`colIndex` is 1-based). -/
structure ParsedAddress where
  column : String
  colIndex : Nat
  row : Nat
deriving DecidableEq

/-- Leftmost match of the regex `([A-Z]+)(\d+)` used by `parseAddress`:
at each start position take the maximal run of uppercase letters and require
a digit run right after it.  (Backtracking inside the letter run can never
succeed, because the character after a shorter prefix of the run is again an
uppercase letter, not a digit.) -/
def findColRow : List Char → Option (List Char × List Char)
  | [] => none
  | c :: rest =>
    let run := (c :: rest).takeWhile Char.isUpper
    if run.isEmpty then findColRow rest
    else
      let digs := leadingDigits ((c :: rest).drop run.length)
      if digs.isEmpty then findColRow rest else some (run, digs)

/-- `parseAddress` from utils.js. -/
def parseAddress (address : String) : Option ParsedAddress :=
  match findColRow address.data with
  | none => none
  | some (letters, digits) =>
    some ⟨String.mk letters, columnLetterToIndex (String.mk letters) + 1, digitsToNat digits⟩

/-- The 26 single-letter column strings A..Z. -/
def singleLetterColumns : List String :=
  (List.range 26).map (fun k => String.singleton (Char.ofNat (65 + k)))

/-- C1 (corrected): the conversion round-trips hold exactly on the
single-letter range: `columnLetterToIndex (indexToColumnLetter i) = i` for
every index `i < 26`, and `indexToColumnLetter (columnLetterToIndex s) = s`
for every single uppercase letter `s`. -/
theorem column_roundtrip_single_letters :
    (∀ i, i < 26 → columnLetterToIndex (indexToColumnLetter i) = i)
    ∧ (∀ s, s ∈ singleLetterColumns →
        indexToColumnLetter (columnLetterToIndex s) = s) := by
  constructor
  · decide
  · decide

/-- C1 witness: the round-trip theorem applied at index 17 and at letter R. -/
theorem column_roundtrip_single_letters_witness :
    columnLetterToIndex (indexToColumnLetter 17) = 17
    ∧ indexToColumnLetter (columnLetterToIndex "R") = "R" :=
  ⟨column_roundtrip_single_letters.1 17 (by decide),
   column_roundtrip_single_letters.2 "R" (by decide)⟩

/-- C1 counterexample: both round-trips of the claim fail beyond single
letters — `columnLetterToIndex "AA" = 0` so it re-encodes to "A", and
`indexToColumnLetter 26 = "AA"` decodes back to 0, not 26. -/
theorem column_roundtrip_fails_multiletter :
    indexToColumnLetter (columnLetterToIndex "AA") ≠ "AA"
    ∧ columnLetterToIndex (indexToColumnLetter 26) ≠ 26 := by
  constructor
  · decide
  · decide

/-- C9 (corrected): `parseAddress "AB123"` yields column "AB", 1-based column
index 2 (since `columnLetterToIndex "AB" = 1` under the plain base-26 decode),
and row 123; `parseAddress "foo"` yields null. -/
theorem parseAddress_values :
    parseAddress "AB123" = some ⟨"AB", 2, 123⟩ ∧ parseAddress "foo" = none := by
  constructor
  · decide
  · decide

/-- C9 counterexample: the claimed 1-based column index 29 for "AB123" is not
what the code returns. -/
theorem parseAddress_colIndex_cex :
    parseAddress "AB123" ≠ some ⟨"AB", 29, 123⟩ := by
  decide

/-- Civil (proleptic Gregorian) date to days since the Unix epoch; model of
the JS `new Date(y, m-1, d)` constructor at local midnight.  `d` may lie
outside 1..31 and `m` outside 1..12; both normalize as in JS. -/
def daysFromCivil (y m d : ℤ) : ℤ :=
  let y1 := y + (m - 1).fdiv 12
  let m1 := (m - 1).emod 12 + 1
  let y2 := y1 - (if m1 ≤ 2 then 1 else 0)
  let era := (if 0 ≤ y2 then y2 else y2 - 399) / 400
  let yoe := y2 - era * 400
  let doy := (153 * (m1 + (if 2 < m1 then -3 else 9)) + 2) / 5 + d - 1
  let doe := yoe * 365 + yoe / 4 - yoe / 100 + doy
  era * 146097 + doe - 719468

/-- Days since the Unix epoch back to a civil (year, month, day) triple. -/
def civilFromDays (z : ℤ) : ℤ × ℤ × ℤ :=
  let z1 := z + 719468
  let era := (if 0 ≤ z1 then z1 else z1 - 146096) / 146097
  let doe := z1 - era * 146097
  let yoe := (doe - doe / 1460 + doe / 36524 - doe / 146096) / 365
  let y := yoe + era * 400
  let doy := doe - (365 * yoe + yoe / 4 - yoe / 100)
  let mp := (5 * doy + 2) / 153
  let d := doy - (153 * mp + 2) / 5 + 1
  let m := mp + (if mp < 10 then 3 else -9)
  (y + (if m ≤ 2 then 1 else 0), m, d)

/-- Day-of-month of an epoch day, as JS `getDate()`. -/
def dayOfMonth (z : ℤ) : ℤ := (civilFromDays z).2.2

/-- Day of week of an epoch day, as JS `getDay()` (0 = Sunday). -/
def dayOfWeek (z : ℤ) : ℤ := (z + 4) % 7

/-- `getMonday` from utils.js: the Monday of the week containing the date. -/
def getMonday (z : ℤ) : ℤ :=
  let dow := dayOfWeek z
  z - (if dow = 0 then 6 else dow - 1)

/-- `daysBetween` from utils.js; both dates sit at local midnight so the
millisecond quotient is the exact difference in days. -/
def daysBetween (date1 date2 : ℤ) : ℤ := date2 - date1

/-- A worksheet of the Weekly workbook: cell contents and fill colors indexed
by 1-based (column, row). -/
structure WeeklySheet where
  cells : Nat → Nat → CellVal
  fill : Nat → Nat → Option String

/-- Point update of a cell-grid function. -/
def setCell (f : Nat → Nat → CellVal) (c r : Nat) (v : CellVal) : Nat → Nat → CellVal :=
  fun c1 r1 => if c1 = c ∧ r1 = r then v else f c1 r1

/-- Single-cell write on a sheet, as `range.values = [[v]]`. -/
def writeCell (s : WeeklySheet) (c r : Nat) (v : CellVal) : WeeklySheet :=
  { s with cells := setCell s.cells c r v }

/-- `CONFIG.WEEKLY.SCORE_COLUMNS` (1-based: D, F, H, J, L, N, P). -/
def SCORE_COLUMNS : List Nat := [4, 6, 8, 10, 12, 14, 16]

/-- `CONFIG.WEEKLY.TASK_COLUMNS` (1-based: C, E, G, I, K, M, O). -/
def TASK_COLUMNS : List Nat := [3, 5, 7, 9, 11, 13, 15]

/-- The score column read by `clearForNewWeek` when deciding whether to clear
the pair at column `c`: a task column (odd, C..O) pairs with the score column
to its right, a score column with itself. -/
def pairedScoreCol (c : Nat) : Nat := if c % 2 = 1 then c + 1 else c

/-- `clearForNewWeek` from weekly.js: clears all fill colors in C5:Z38,
clears the totals row C38:P38, and clears the task/score cell pair in rows
5..37 of each day exactly when that row's score cell is non-empty (each score
cell is read before any write of the same loop iteration, so all reads see
the original sheet). -/
def clearForNewWeek (s : WeeklySheet) : WeeklySheet :=
  { cells := fun c r =>
      if r = 38 ∧ 3 ≤ c ∧ c ≤ 16 then CellVal.empty
      else if 5 ≤ r ∧ r ≤ 37 ∧ 3 ≤ c ∧ c ≤ 16
              ∧ isNonEmptyCell (s.cells (pairedScoreCol c) r) = true then CellVal.empty
      else s.cells c r
  , fill := fun c r =>
      if 3 ≤ c ∧ c ≤ 26 ∧ 5 ≤ r ∧ r ≤ 38 then none else s.fill c r }

/-- The `yyyy mm` header written to B4, as in `setNewWeekDates`. -/
def yearMonthString (z : ℤ) : String :=
  intStr (civilFromDays z).1 ++ " " ++ padStart2 (intStr (civilFromDays z).2.1)

/-- `setNewWeekDates` from weekly.js: writes the `yyyy mm` anchor of the
Monday of `today` into B4 and the seven day-of-month headers into
D4, F4, ..., P4 (columns 4, 6, ..., 16; column `c` holds day `(c-4)/2`). -/
def setNewWeekDates (today : ℤ) (s : WeeklySheet) : WeeklySheet :=
  let nm := getMonday today
  { s with cells := fun c r =>
      if c = 2 ∧ r = 4 then CellVal.str (yearMonthString nm)
      else if r = 4 ∧ 4 ≤ c ∧ c ≤ 16 ∧ c % 2 = 0 then
        CellVal.num ((dayOfMonth (nm + ((c - 4) / 2 : Nat)) : ℤ) : ℚ)
      else s.cells c r }

/-- Character-level test used by `escapeCSV`. -/
def containsChar (s : String) (c : Char) : Bool := s.data.contains c

/-- Doubling of quote characters inside a CSV-escaped value. -/
def escapeQuotes (l : List Char) : List Char :=
  l.foldr (fun c acc => if c = '"' then '"' :: '"' :: acc else c :: acc) []

/-- `escapeCSV` from weekly.js on a string value. -/
def escapeCSV (s : String) : String :=
  if containsChar s ',' || containsChar s '"' || containsChar s '\n' then
    String.mk ('"' :: (escapeQuotes s.data ++ ['"']))
  else s

/-- JS `Math.round` (half away from zero is actually half toward +infinity). -/
def jsRound (q : ℚ) : ℤ := ⌊q + 1 / 2⌋

/-- Time-string rendering of a numeric time cell in the archive loop of
`archiveWeekAutomatically`: every number is treated as an Excel day fraction
and multiplied by 24. -/
def archiveTimeString (q : ℚ) : String :=
  padStart2 (intStr ⌊q * 24⌋) ++ ":" ++ padStart2 (intStr (jsRound ((q * 24 - ⌊q * 24⌋) * 60)))

/-- The `timeStr` of one archive row: numbers via `archiveTimeString`,
anything else via `String(time)`. -/
def formatArchiveTime : CellVal → String
  | CellVal.num q => archiveTimeString q
  | v => jsToString v

/-- The skip test `time === '' || time === null` of the archive loop. -/
def timeSkipped (v : CellVal) : Bool :=
  decide (v = CellVal.empty) || decide (v = CellVal.str "")

/-- The fourteen task/score fields of one archive row, built from the C..P
cells of that row: per day `d` the task field is
`escapeCSV(String(cells[2d] || ''))` and the score field is the raw value when
non-empty, else the empty string. -/
def dayPairFields (cells : List CellVal) : List String :=
  (List.range 7).flatMap (fun d =>
    let tv := cells.getD (2 * d) CellVal.empty
    let sv := cells.getD (2 * d + 1) CellVal.empty
    [escapeCSV (jsToString (if truthy tv then tv else CellVal.str "")),
     if isNonEmptyCell sv then jsToString sv else ""])

/-- All fields of one archive row. -/
def archiveRowFields (timeVal : CellVal) (cells : List CellVal) : List String :=
  escapeCSV (formatArchiveTime timeVal) :: dayPairFields cells

/-- The row loop of `archiveWeekAutomatically`: one list of fields per time
slot whose time cell is non-empty, in sheet order.  `timeVals` are the B5:B36
values and `dataRows` the parallel C5:P36 rows (the two ranges always have the
same number of rows). -/
def archiveTable : List CellVal → List (List CellVal) → List (List String)
  | [], _ => []
  | _ :: _, [] => []
  | t :: ts, drow :: drest =>
    if timeSkipped t then archiveTable ts drest
    else archiveRowFields t drow :: archiveTable ts drest

/-- Comma join of one CSV row. -/
def joinComma : List String → String
  | [] => ""
  | [x] => x
  | x :: xs => x ++ "," ++ joinComma xs

/-- The CSV header `Time,Mon_Task,Mon_Score,...,Sun_Task,Sun_Score`. -/
def csvHeaderLine : String :=
  joinComma ("Time" :: (["Mon", "Tue", "Wed", "Thu", "Fri", "Sat", "Sun"].flatMap
    (fun d => [d ++ "_Task", d ++ "_Score"])))

/-- Concatenation of the CSV body, one line (with trailing newline) per row. -/
def joinLines (t : List (List String)) : String :=
  t.foldl (fun acc row => acc ++ joinComma row ++ "\n") ""

/-- The full CSV payload built by `archiveWeekAutomatically` from the Weekly
sheet: header line plus one line per non-empty time slot. -/
def buildArchiveCsv (s : WeeklySheet) : String :=
  let timeVals := (List.range 32).map (fun k => s.cells 2 (5 + k))
  let dataRows := (List.range 32).map (fun k => (List.range 14).map (fun c => s.cells (3 + c) (5 + k)))
  csvHeaderLine ++ "\n" ++ joinLines (archiveTable timeVals dataRows)

/-- Outcome of parsing the B4/D4 anchor in `initializeWeeklyOnOpen`:
no anchor at all (empty B4 or fewer than two space-separated parts, the
first-time-setup path), an unparseable anchor (JS builds a truthy Invalid
Date and the handler then does nothing), or a parsed anchor Monday. -/
inductive AnchorParse where
  | noAnchor
  | invalidAnchor
  | anchor (monday : ℤ)
deriving DecidableEq

/-- JS `split(' ')` on the character list of a string. -/
def splitOnSpace : List Char → List (List Char)
  | [] => [[]]
  | c :: rest =>
    let r := splitOnSpace rest
    if c = ' ' then [] :: r
    else (c :: r.headD []) :: r.tail

/-- JS `dateStr.split(' ')`. -/
def jsSplitSpace (s : String) : List String := (splitOnSpace s.data).map String.mk

/-- The anchor-parsing prefix of `initializeWeeklyOnOpen`: B4 is read as
`String(v || '')`, D4 as `parseInt(v) || 0`, and the sheet's Monday is
`new Date(year, month - 1, firstDay)`. -/
def parseAnchorState (dateStr : String) (firstDay : ℤ) : AnchorParse :=
  if dateStr = "" then AnchorParse.noAnchor
  else
    let parts := jsSplitSpace dateStr
    if parts.length < 2 then AnchorParse.noAnchor
    else
      match parseIntChars (parts.getD 0 "").data, parseIntChars (parts.getD 1 "").data with
      | some y, some m => AnchorParse.anchor (daysFromCivil y m firstDay)
      | _, _ => AnchorParse.invalidAnchor

/-- One observable step of the rollover portion of `initializeWeeklyOnOpen`. -/
inductive WeeklyAction where
  | archive (csv : String)
  | clearWeek
  | setDates (monday : ℤ)

/-- Result of the rollover portion of `initializeWeeklyOnOpen`: the ordered
actions performed and the sheet afterwards. -/
structure WeeklyInitResult where
  actions : List WeeklyAction
  sheet : WeeklySheet

/-- The rollover portion of `initializeWeeklyOnOpen` from weekly.js (the
subsequent day/time highlighting and session bookkeeping are modelled
separately): with a parsed anchor and `daysBetween >= 7` it archives, clears
and re-dates in that order; with fewer than 7 days it does none of those;
with no anchor it performs first-time setup. -/
def initializeWeeklyOnOpen (today : ℤ) (s : WeeklySheet) : WeeklyInitResult :=
  let dateStr := jsStringOrEmpty (s.cells 2 4)
  let firstDay := jsParseIntOr 0 (s.cells 4 4)
  match parseAnchorState dateStr firstDay with
  | AnchorParse.anchor monday =>
    if 7 ≤ daysBetween monday today then
      ⟨[WeeklyAction.archive (buildArchiveCsv s), WeeklyAction.clearWeek,
        WeeklyAction.setDates (getMonday today)],
       setNewWeekDates today (clearForNewWeek s)⟩
    else ⟨[], s⟩
  | AnchorParse.invalidAnchor => ⟨[], s⟩
  | AnchorParse.noAnchor => ⟨[WeeklyAction.setDates (getMonday today)], setNewWeekDates today s⟩

/-- Pointwise description of the cells after `setNewWeekDates`. -/
theorem setNewWeekDates_cells (today : ℤ) (s : WeeklySheet) (c r : Nat) :
    (setNewWeekDates today s).cells c r =
      if c = 2 ∧ r = 4 then CellVal.str (yearMonthString (getMonday today))
      else if r = 4 ∧ 4 ≤ c ∧ c ≤ 16 ∧ c % 2 = 0 then
        CellVal.num ((dayOfMonth (getMonday today + ((c - 4) / 2 : Nat)) : ℤ) : ℚ)
      else s.cells c r := rfl

/-- `setNewWeekDates` writes no fill colors. -/
theorem setNewWeekDates_fill (today : ℤ) (s : WeeklySheet) :
    (setNewWeekDates today s).fill = s.fill := rfl

/-- Pointwise description of the cells after `clearForNewWeek`. -/
theorem clearForNewWeek_cells (s : WeeklySheet) (c r : Nat) :
    (clearForNewWeek s).cells c r =
      if r = 38 ∧ 3 ≤ c ∧ c ≤ 16 then CellVal.empty
      else if 5 ≤ r ∧ r ≤ 37 ∧ 3 ≤ c ∧ c ≤ 16
              ∧ isNonEmptyCell (s.cells (pairedScoreCol c) r) = true then CellVal.empty
      else s.cells c r := rfl

/-- Pointwise description of the fills after `clearForNewWeek`. -/
theorem clearForNewWeek_fill (s : WeeklySheet) (c r : Nat) :
    (clearForNewWeek s).fill c r =
      if 3 ≤ c ∧ c ≤ 26 ∧ 5 ≤ r ∧ r ≤ 38 then none else s.fill c r := rfl

/-- C4 (corrected): with a stored anchor Monday and at least 7 elapsed days,
the engine archives the grid to CSV, clears, and re-dates, in that order; the
clear removes all fill colors in C5:Z38, the totals row C38:P38, and the
task/score cells of every data row whose score cell is non-empty (a task cell
whose row has no score is left in place); the new anchor is the Monday of
today's week with its 7 day-of-month headers.  With fewer than 7 elapsed days
none of the archive/clear/re-date steps runs and the sheet is unchanged. -/
theorem weekly_rollover_sequence (today monday : ℤ) (s : WeeklySheet)
    (hanchor : parseAnchorState (jsStringOrEmpty (s.cells 2 4)) (jsParseIntOr 0 (s.cells 4 4))
        = AnchorParse.anchor monday) :
    (7 ≤ today - monday →
      (initializeWeeklyOnOpen today s).actions
          = [WeeklyAction.archive (buildArchiveCsv s), WeeklyAction.clearWeek,
             WeeklyAction.setDates (getMonday today)]
      ∧ (initializeWeeklyOnOpen today s).sheet.cells 2 4
          = CellVal.str (yearMonthString (getMonday today))
      ∧ (∀ i : Nat, i < 7 → (initializeWeeklyOnOpen today s).sheet.cells (2 * i + 4) 4
          = CellVal.num ((dayOfMonth (getMonday today + (i : ℤ)) : ℤ) : ℚ))
      ∧ (∀ c : Nat, 3 ≤ c → c ≤ 16 →
          (initializeWeeklyOnOpen today s).sheet.cells c 38 = CellVal.empty)
      ∧ (∀ c r : Nat, 3 ≤ c → c ≤ 26 → 5 ≤ r → r ≤ 38 →
          (initializeWeeklyOnOpen today s).sheet.fill c r = none)
      ∧ (∀ d r : Nat, d < 7 → 5 ≤ r → r ≤ 37 →
          isNonEmptyCell (s.cells (2 * d + 4) r) = true →
          (initializeWeeklyOnOpen today s).sheet.cells (2 * d + 3) r = CellVal.empty
          ∧ (initializeWeeklyOnOpen today s).sheet.cells (2 * d + 4) r = CellVal.empty))
    ∧ (today - monday < 7 →
        (initializeWeeklyOnOpen today s).actions = []
        ∧ (initializeWeeklyOnOpen today s).sheet = s) := by
  constructor
  · intro h7
    have hrun : initializeWeeklyOnOpen today s =
        ⟨[WeeklyAction.archive (buildArchiveCsv s), WeeklyAction.clearWeek,
          WeeklyAction.setDates (getMonday today)],
         setNewWeekDates today (clearForNewWeek s)⟩ := by
      have hle : 7 ≤ daysBetween monday today := by simp [daysBetween]; omega
      unfold initializeWeeklyOnOpen
      simp only [hanchor]
      simp [hle]
    rw [hrun]
    refine ⟨rfl, ?_, ?_, ?_, ?_, ?_⟩
    · rw [setNewWeekDates_cells, if_pos ⟨rfl, rfl⟩]
    · intro i hi
      rw [setNewWeekDates_cells, if_neg (by omega), if_pos (by omega)]
      have he : (2 * i + 4 - 4) / 2 = i := by omega
      rw [he]
    · intro c hc1 hc2
      rw [setNewWeekDates_cells, if_neg (by omega), if_neg (by omega),
        clearForNewWeek_cells, if_pos (by omega)]
    · intro c r hc1 hc2 hr1 hr2
      show (clearForNewWeek s).fill c r = none
      rw [clearForNewWeek_fill, if_pos (by omega)]
    · intro d r hd hr1 hr2 hscore
      have hp1 : pairedScoreCol (2 * d + 3) = 2 * d + 4 := by
        unfold pairedScoreCol
        rw [if_pos (by omega)]
      have hp2 : pairedScoreCol (2 * d + 4) = 2 * d + 4 := by
        unfold pairedScoreCol
        rw [if_neg (by omega)]
      constructor
      · rw [setNewWeekDates_cells, if_neg (by omega), if_neg (by omega),
          clearForNewWeek_cells, if_neg (by omega), if_pos ⟨hr1, hr2, by omega, by omega, by rw [hp1]; exact hscore⟩]
      · rw [setNewWeekDates_cells, if_neg (by omega), if_neg (by omega),
          clearForNewWeek_cells, if_neg (by omega), if_pos ⟨hr1, hr2, by omega, by omega, by rw [hp2]; exact hscore⟩]
  · intro hlt
    have hrun : initializeWeeklyOnOpen today s = ⟨[], s⟩ := by
      have hn : ¬ 7 ≤ daysBetween monday today := by simp [daysBetween]; omega
      unfold initializeWeeklyOnOpen
      simp only [hanchor]
      simp [hn]
    rw [hrun]
    exact ⟨rfl, rfl⟩

/-- A concrete Weekly sheet: anchor `2024 12` / first day 9 (Monday
2024-12-09), a task without a score in row 5 (column C), and a scored task in
row 6 of Tuesday (columns E/F). -/
def rolloverSheet : WeeklySheet :=
  ⟨fun c r =>
    if c = 2 ∧ r = 4 then CellVal.str "2024 12"
    else if c = 4 ∧ r = 4 then CellVal.num 9
    else if c = 3 ∧ r = 5 then CellVal.str "X"
    else if c = 5 ∧ r = 6 then CellVal.str "Y"
    else if c = 6 ∧ r = 6 then CellVal.num (3 / 5)
    else CellVal.empty,
   fun _ _ => none⟩

/-- C4 witness: the rollover theorem applied with anchor 2024-12-09 (epoch day
20066) and today 2024-12-17 (epoch day 20074, 8 days later): the archive,
clear, and re-date actions fire in order, the new anchor is 2024-12-16 with
first day header 16, and the scored Tuesday pair of row 6 is cleared. -/
theorem weekly_rollover_sequence_witness :
    (initializeWeeklyOnOpen 20074 rolloverSheet).actions
        = [WeeklyAction.archive (buildArchiveCsv rolloverSheet), WeeklyAction.clearWeek,
           WeeklyAction.setDates (getMonday 20074)]
    ∧ (initializeWeeklyOnOpen 20074 rolloverSheet).sheet.cells 2 4 = CellVal.str "2024 12"
    ∧ (initializeWeeklyOnOpen 20074 rolloverSheet).sheet.cells 4 4 = CellVal.num 16
    ∧ (initializeWeeklyOnOpen 20074 rolloverSheet).sheet.cells 5 6 = CellVal.empty
    ∧ (initializeWeeklyOnOpen 20074 rolloverSheet).sheet.cells 6 6 = CellVal.empty := by
  have h := (weekly_rollover_sequence 20074 20066 rolloverSheet (by decide)).1 (by decide)
  refine ⟨h.1, ?_, ?_, ?_, ?_⟩
  · exact h.2.1.trans (by decide)
  · exact (h.2.2.1 0 (by decide)).trans (by decide)
  · exact ((h.2.2.2.2.2 1 6 (by decide) (by decide) (by decide) (by decide)).1)
  · exact ((h.2.2.2.2.2 1 6 (by decide) (by decide) (by decide) (by decide)).2)

/-- C4 counterexample: the rollover does run on `rolloverSheet` (three
actions), yet the task cell C5 — whose row has no score — still holds "X"
afterwards, so the claim that the engine clears the task/score cells is false
as stated. -/
theorem rollover_keeps_task_without_score_cex :
    (initializeWeeklyOnOpen 20074 rolloverSheet).actions.length = 3
    ∧ (initializeWeeklyOnOpen 20074 rolloverSheet).sheet.cells 3 5 = CellVal.str "X" := by
  constructor
  · rfl
  · decide

/-- Decimal rendering of a cast natural number. -/
theorem intStr_natCast (n : Nat) : intStr (n : ℤ) = Nat.repr n := by
  unfold intStr
  rw [if_pos (Int.natCast_nonneg n)]
  simp

/-- C8 (corrected): the archive loop keeps exactly the rows whose time cell is
non-empty, in order, and renders every numeric time as a day fraction:
`floor(q*24)` hours and rounded residual minutes, each padded to two digits.
A true day fraction `(h*60+m)/1440` therefore renders as the zero-padded
`HH:MM`, but a raw hour decimal is multiplied by 24 like everything else. -/
theorem archive_time_day_fraction_rendering :
    (∀ (timeVals : List CellVal) (dataRows : List (List CellVal)),
      timeVals.length = dataRows.length →
      archiveTable timeVals dataRows
        = ((timeVals.zip dataRows).filter (fun p => !timeSkipped p.1)).map
            (fun p => archiveRowFields p.1 p.2))
    ∧ (∀ h m : Nat, h < 24 → m < 60 →
        archiveTimeString (((h * 60 + m : Nat) : ℚ) / 1440)
          = padStart2 (Nat.repr h) ++ ":" ++ padStart2 (Nat.repr m)) := by
  constructor
  · intro timeVals
    induction timeVals with
    | nil =>
      intro dataRows h
      have : dataRows = [] := by
        cases dataRows with
        | nil => rfl
        | cons d ds => simp at h
      subst this
      rfl
    | cons t ts ih =>
      intro dataRows h
      cases dataRows with
      | nil => simp at h
      | cons d ds =>
        have h2 : ts.length = ds.length := by simpa using h
        by_cases hs : timeSkipped t = true
        · simp [archiveTable, hs, ih ds h2]
        · simp [archiveTable, hs, ih ds h2]
  · intro h m hh hm
    have hq : (((h * 60 + m : Nat) : ℚ) / 1440) * 24 = (h : ℚ) + (m : ℚ) / 60 := by
      push_cast
      ring
    have hfl : ⌊(h : ℚ) + (m : ℚ) / 60⌋ = (h : ℤ) := by
      rw [Int.floor_eq_iff]
      constructor
      · push_cast
        have : (0 : ℚ) ≤ (m : ℚ) / 60 := by positivity
        linarith
      · push_cast
        have : (m : ℚ) / 60 < 1 := by
          rw [div_lt_one (by norm_num)]
          exact_mod_cast hm
        linarith
    have hmin : ((((h * 60 + m : Nat) : ℚ) / 1440) * 24
        - (⌊(((h * 60 + m : Nat) : ℚ) / 1440) * 24⌋ : ℤ)) * 60 = (m : ℚ) := by
      rw [hq, hfl]
      push_cast
      ring
    have hrd : jsRound (((((h * 60 + m : Nat) : ℚ) / 1440) * 24
        - (⌊(((h * 60 + m : Nat) : ℚ) / 1440) * 24⌋ : ℤ)) * 60) = (m : ℤ) := by
      rw [hmin]
      unfold jsRound
      rw [Int.floor_eq_iff]
      constructor
      · push_cast
        linarith
      · push_cast
        linarith
    unfold archiveTimeString
    rw [hrd]
    rw [show ⌊(((h * 60 + m : Nat) : ℚ) / 1440) * 24⌋ = (h : ℤ) by rw [hq, hfl]]
    rw [intStr_natCast, intStr_natCast]

/-- C8 witness: the archive theorem applied to a two-row time column (a kept
day fraction 1/2 and a skipped empty cell) and to the fraction for 15:30. -/
theorem archive_time_day_fraction_rendering_witness :
    archiveTable [CellVal.num (1 / 2), CellVal.empty] [[], []]
      = (([CellVal.num (1 / 2), CellVal.empty].zip [([] : List CellVal), []]).filter
          (fun p => !timeSkipped p.1)).map (fun p => archiveRowFields p.1 p.2)
    ∧ archiveTimeString (((15 * 60 + 30 : Nat) : ℚ) / 1440)
        = padStart2 (Nat.repr 15) ++ ":" ++ padStart2 (Nat.repr 30) :=
  ⟨archive_time_day_fraction_rendering.1 _ _ (by decide),
   archive_time_day_fraction_rendering.2 15 30 (by decide) (by decide)⟩

/-- C8 counterexample: a raw hour decimal 15.5 in the time column is archived
as "372:00" (15.5 multiplied by 24), not as the claimed "15:30". -/
theorem archive_raw_hour_not_hhmm_cex :
    ((archiveTable [CellVal.num (31 / 2)] [[]]).headD []).headD "" = "372:00"
    ∧ ((archiveTable [CellVal.num (31 / 2)] [[]]).headD []).headD "" ≠ "15:30" := by
  have h1 : ⌊(31 / 2 : ℚ) * 24⌋ = (372 : ℤ) := by
    rw [show (31 / 2 : ℚ) * 24 = ((372 : ℤ) : ℚ) by norm_num]
    exact Int.floor_intCast 372
  have h2 : jsRound (((31 / 2 : ℚ) * 24 - ((372 : ℤ) : ℚ)) * 60) = 0 := by
    unfold jsRound
    rw [show ((31 / 2 : ℚ) * 24 - ((372 : ℤ) : ℚ)) * 60 + 1 / 2 = 1 / 2 by norm_num]
    rw [Int.floor_eq_iff]
    norm_num
  have hts : archiveTimeString (31 / 2) = "372:00" := by
    unfold archiveTimeString
    rw [h1, h2]
    decide
  have hhead : ((archiveTable [CellVal.num (31 / 2)] [[]]).headD []).headD ""
      = escapeCSV (archiveTimeString (31 / 2)) := rfl
  rw [hhead, hts]
  constructor
  · decide
  · decide

/-- The `^(\d{1,2}):(\d{2})$` branch of `highlightCurrentTimeRow`: parse
"H:MM" or "HH:MM" into hours. -/
def parseHHMM (s : String) : Option ℚ :=
  match s.data with
  | [a, ':', c, d] =>
    if a.isDigit && c.isDigit && d.isDigit then
      some ((digitVal a : ℚ) + ((10 * digitVal c + digitVal d : Nat) : ℚ) / 60)
    else none
  | [a, b, ':', c, d] =>
    if a.isDigit && b.isDigit && c.isDigit && d.isDigit then
      some (((10 * digitVal a + digitVal b : Nat) : ℚ)
        + ((10 * digitVal c + digitVal d : Nat) : ℚ) / 60)
    else none
  | _ => none

/-- Normalization of one time cell in `highlightCurrentTimeRow`: a number in
[0, 1] is a day fraction (times 24), a number in [0, 24] is already hours,
an `HH:MM` string is parsed, everything else is skipped. -/
def normalizeTime : CellVal → Option ℚ
  | CellVal.empty => none
  | CellVal.num q =>
    if 0 ≤ q ∧ q ≤ 1 then some (q * 24)
    else if 0 ≤ q ∧ q ≤ 24 then some q
    else none
  | CellVal.str s => parseHHMM s

/-- The scanning loop of `highlightCurrentTimeRow`: running row index `i`,
best row `best`, best value `bv` (initially -1); a candidate `t` wins when
`t <= now + 0.1 && t > bv`. -/
def bestScan (now : ℚ) : List CellVal → Nat → Option Nat → ℚ → Option Nat
  | [], _, best, _ => best
  | v :: rest, i, best, bv =>
    match normalizeTime v with
    | none => bestScan now rest (i + 1) best bv
    | some t =>
      if t ≤ now + 1 / 10 ∧ bv < t then bestScan now rest (i + 1) (some i) t
      else bestScan now rest (i + 1) best bv

/-- `highlightCurrentTimeRow` from weekly.js, as the 0-based index (into the
B5:B36 values) of the row it highlights, `none` when no row qualifies. -/
def highlightCurrentTimeRow (vals : List CellVal) (now : ℚ) : Option Nat :=
  bestScan now vals 0 none (-1)

/-- Head-first restatement of the scan used for reasoning: the winning
(relative index, value) of the suffix given the best value so far. -/
def goBest (now : ℚ) : List CellVal → ℚ → Option (Nat × ℚ)
  | [], _ => none
  | v :: rest, bv =>
    match normalizeTime v with
    | none => (goBest now rest bv).map (fun p => (p.1 + 1, p.2))
    | some t =>
      if t ≤ now + 1 / 10 ∧ bv < t then
        match goBest now rest t with
        | some p => some (p.1 + 1, p.2)
        | none => some (0, t)
      else (goBest now rest bv).map (fun p => (p.1 + 1, p.2))

/-- Normalized candidate time of row `j` of the time column. -/
def normalizedTimeAt (vals : List CellVal) (j : Nat) : Option ℚ :=
  (vals.get? j).bind normalizeTime

theorem normalizedTimeAt_cons_zero (v : CellVal) (rest : List CellVal) :
    normalizedTimeAt (v :: rest) 0 = normalizeTime v := rfl

theorem normalizedTimeAt_cons_succ (v : CellVal) (rest : List CellVal) (j : Nat) :
    normalizedTimeAt (v :: rest) (j + 1) = normalizedTimeAt rest j := rfl

/-- Parsed `HH:MM` values are nonnegative. -/
theorem parseHHMM_nonneg (s : String) (t : ℚ) (h : parseHHMM s = some t) : 0 ≤ t := by
  unfold parseHHMM at h
  split at h
  · split at h
    · injection h with h
      subst h
      positivity
    · cases h
  · split at h
    · injection h with h
      subst h
      positivity
    · cases h
  · cases h

/-- Normalized candidate times are nonnegative. -/
theorem normalizeTime_nonneg (v : CellVal) (t : ℚ) (h : normalizeTime v = some t) : 0 ≤ t := by
  cases v with
  | empty => cases h
  | str s => exact parseHHMM_nonneg s t h
  | num q =>
    have h2 : (if 0 ≤ q ∧ q ≤ 1 then some (q * 24)
        else if 0 ≤ q ∧ q ≤ 24 then some q else none) = some t := h
    split at h2
    · injection h2 with h2
      subst h2
      rename_i hq
      have h1 := hq.1
      positivity
    · split at h2
      · injection h2 with h2
        subst h2
        rename_i hq
        exact hq.1
      · cases h2

theorem normalizedTimeAt_nonneg (vals : List CellVal) (j : Nat) (t : ℚ)
    (h : normalizedTimeAt vals j = some t) : 0 ≤ t := by
  unfold normalizedTimeAt at h
  cases hg : vals.get? j with
  | none => rw [hg] at h; cases h
  | some v => rw [hg] at h; exact normalizeTime_nonneg v t h

/-- The source loop agrees with the head-first scan. -/
theorem bestScan_eq_goBest (now : ℚ) (vals : List CellVal) :
    ∀ (n : Nat) (b : Option Nat) (bv : ℚ),
      bestScan now vals n b bv =
        match goBest now vals bv with
        | some p => some (n + p.1)
        | none => b := by
  induction vals with
  | nil => intro n b bv; rfl
  | cons v rest ih =>
    intro n b bv
    unfold bestScan goBest
    cases hv : normalizeTime v with
    | none =>
      simp only [hv]
      rw [ih]
      cases hg : goBest now rest bv with
      | none => rfl
      | some p => simp only [Option.map_some']; congr 1; omega
    | some t =>
      simp only [hv]
      by_cases hc : t ≤ now + 1 / 10 ∧ bv < t
      · rw [if_pos hc, if_pos hc, ih]
        cases hg : goBest now rest t with
        | none => rfl
        | some p => simp only []; congr 1; omega
      · rw [if_neg hc, if_neg hc, ih]
        cases hg : goBest now rest bv with
        | none => rfl
        | some p => simp only [Option.map_some']; congr 1; omega

/-- The scan returns nothing exactly when every qualifying candidate is
already dominated by the incoming best value. -/
theorem goBest_eq_none_iff (now : ℚ) (vals : List CellVal) :
    ∀ bv : ℚ, goBest now vals bv = none ↔
      ∀ j t, normalizedTimeAt vals j = some t → t ≤ now + 1 / 10 → t ≤ bv := by
  induction vals with
  | nil =>
    intro bv
    constructor
    · intro _ j t hj
      simp [normalizedTimeAt] at hj
    · intro _
      rfl
  | cons v rest ih =>
    intro bv
    unfold goBest
    cases hv : normalizeTime v with
    | none =>
      simp only [hv, Option.map_eq_none']
      rw [ih bv]
      constructor
      · intro h j t hj hle
        cases j with
        | zero => rw [normalizedTimeAt_cons_zero, hv] at hj; cases hj
        | succ j => exact h j t (by rw [normalizedTimeAt_cons_succ] at hj; exact hj) hle
      · intro h j t hj hle
        exact h (j + 1) t (by rw [normalizedTimeAt_cons_succ]; exact hj) hle
    | some t =>
      simp only [hv]
      by_cases hc : t ≤ now + 1 / 10 ∧ bv < t
      · rw [if_pos hc]
        apply iff_of_false
        · cases hg : goBest now rest t <;> simp [hg]
        · push_neg
          exact ⟨0, t, by rw [normalizedTimeAt_cons_zero, hv], hc.1, hc.2⟩
      · rw [if_neg hc]
        simp only [Option.map_eq_none']
        rw [ih bv]
        constructor
        · intro h j tj hj hle
          cases j with
          | zero =>
            rw [normalizedTimeAt_cons_zero, hv] at hj
            injection hj with hj
            subst hj
            by_contra hgt
            exact hc ⟨hle, lt_of_not_le hgt⟩
          | succ j => exact h j tj (by rw [normalizedTimeAt_cons_succ] at hj; exact hj) hle
        · intro h j tj hj hle
          exact h (j + 1) tj (by rw [normalizedTimeAt_cons_succ]; exact hj) hle

/-- When the scan returns a winner, the winner qualifies, strictly beats the
incoming best value, and dominates every qualifying candidate — strictly so
for candidates at earlier rows. -/
theorem goBest_eq_some_spec (now : ℚ) (vals : List CellVal) :
    ∀ (bv : ℚ) (i : Nat) (ti : ℚ), goBest now vals bv = some (i, ti) →
      normalizedTimeAt vals i = some ti ∧ ti ≤ now + 1 / 10 ∧ bv < ti ∧
      ∀ j tj, normalizedTimeAt vals j = some tj → tj ≤ now + 1 / 10 →
        tj ≤ ti ∧ (j < i → tj < ti) := by
  induction vals with
  | nil => intro bv i ti h; cases h
  | cons v rest ih =>
    intro bv i ti h
    unfold goBest at h
    cases hv : normalizeTime v with
    | none =>
      simp only [hv, Option.map_eq_some'] at h
      obtain ⟨⟨i1, ti1⟩, hp, hshift⟩ := h
      have hi : i = i1 + 1 := by
        have := congrArg Prod.fst hshift
        simpa using this.symm
      have hti : ti = ti1 := by
        have := congrArg Prod.snd hshift
        simpa using this.symm
      subst hi
      subst hti
      obtain ⟨hnt, hle, hbv, hall⟩ := ih bv i1 ti hp
      refine ⟨by rw [normalizedTimeAt_cons_succ]; exact hnt, hle, hbv, ?_⟩
      intro j tj hj hjle
      cases j with
      | zero => rw [normalizedTimeAt_cons_zero, hv] at hj; cases hj
      | succ j =>
        have hr := hall j tj (by rw [normalizedTimeAt_cons_succ] at hj; exact hj) hjle
        exact ⟨hr.1, fun hlt => hr.2 (by omega)⟩
    | some t =>
      simp only [hv] at h
      by_cases hc : t ≤ now + 1 / 10 ∧ bv < t
      · rw [if_pos hc] at h
        cases hg : goBest now rest t with
        | some p =>
          obtain ⟨i1, ti1⟩ := p
          simp only [hg] at h
          injection h with h
          have hi : i = i1 + 1 := by
            have := congrArg Prod.fst h
            simpa using this.symm
          have hti : ti = ti1 := by
            have := congrArg Prod.snd h
            simpa using this.symm
          subst hi
          subst hti
          obtain ⟨hnt, hle, hbt, hall⟩ := ih t i1 ti hg
          refine ⟨by rw [normalizedTimeAt_cons_succ]; exact hnt, hle, lt_trans hc.2 hbt, ?_⟩
          intro j tj hj hjle
          cases j with
          | zero =>
            rw [normalizedTimeAt_cons_zero, hv] at hj
            injection hj with hj
            subst hj
            exact ⟨le_of_lt hbt, fun _ => hbt⟩
          | succ j =>
            have hr := hall j tj (by rw [normalizedTimeAt_cons_succ] at hj; exact hj) hjle
            exact ⟨hr.1, fun hlt => hr.2 (by omega)⟩
        | none =>
          simp only [hg] at h
          injection h with h
          have hi : i = 0 := by
            have := congrArg Prod.fst h
            simpa using this.symm
          have hti : ti = t := by
            have := congrArg Prod.snd h
            simpa using this.symm
          subst hi
          subst hti
          refine ⟨by rw [normalizedTimeAt_cons_zero, hv], hc.1, hc.2, ?_⟩
          intro j tj hj hjle
          cases j with
          | zero =>
            rw [normalizedTimeAt_cons_zero, hv] at hj
            injection hj with hj
            subst hj
            exact ⟨le_refl _, fun hlt => absurd hlt (by omega)⟩
          | succ j =>
            have hdom := (goBest_eq_none_iff now rest ti).mp hg j tj
              (by rw [normalizedTimeAt_cons_succ] at hj; exact hj) hjle
            exact ⟨hdom, fun hlt => absurd hlt (by omega)⟩
      · rw [if_neg hc] at h
        simp only [Option.map_eq_some'] at h
        obtain ⟨⟨i1, ti1⟩, hp, hshift⟩ := h
        have hi : i = i1 + 1 := by
          have := congrArg Prod.fst hshift
          simpa using this.symm
        have hti : ti = ti1 := by
          have := congrArg Prod.snd hshift
          simpa using this.symm
        subst hi
        subst hti
        obtain ⟨hnt, hle, hbv, hall⟩ := ih bv i1 ti hp
        refine ⟨by rw [normalizedTimeAt_cons_succ]; exact hnt, hle, hbv, ?_⟩
        intro j tj hj hjle
        cases j with
        | zero =>
          rw [normalizedTimeAt_cons_zero, hv] at hj
          injection hj with hj
          subst hj
          have hbv2 : t ≤ bv := by
            by_contra hgt
            exact hc ⟨hjle, lt_of_not_le hgt⟩
          exact ⟨le_of_lt (lt_of_le_of_lt hbv2 hbv), fun _ => lt_of_le_of_lt hbv2 hbv⟩
        | succ j =>
          have hr := hall j tj (by rw [normalizedTimeAt_cons_succ] at hj; exact hj) hjle
          exact ⟨hr.1, fun hlt => hr.2 (by omega)⟩

/-- C6 (corrected): `highlightCurrentTimeRow` highlights a row exactly when
some candidate qualifies (`candidateTime <= now + 0.1`), and the highlighted
row carries the maximum qualifying normalized time; among rows sharing that
maximum the EARLIEST (top-most) qualifying row wins, because the source
updates its best only on a strict `>` comparison. -/
theorem time_highlight_earliest_max (vals : List CellVal) (now : ℚ) :
    (highlightCurrentTimeRow vals now = none ↔
      ∀ j t, normalizedTimeAt vals j = some t → ¬ t ≤ now + 1 / 10)
    ∧ ∀ i, highlightCurrentTimeRow vals now = some i →
        (normalizedTimeAt vals i).isSome = true
        ∧ ∀ ti, normalizedTimeAt vals i = some ti →
            ti ≤ now + 1 / 10
            ∧ ∀ j tj, normalizedTimeAt vals j = some tj → tj ≤ now + 1 / 10 →
                tj ≤ ti ∧ (j < i → tj < ti) := by
  have hb := bestScan_eq_goBest now vals 0 none (-1)
  constructor
  · rw [highlightCurrentTimeRow, hb]
    cases hg : goBest now vals (-1) with
    | none =>
      simp only []
      constructor
      · intro _ j t hj hle
        have hdom := (goBest_eq_none_iff now vals (-1)).mp hg j t hj hle
        have hnn := normalizedTimeAt_nonneg vals j t hj
        linarith
      · intro _
        trivial
    | some p =>
      simp only []
      apply iff_of_false
      · simp
      · obtain ⟨hnt, hle, _, _⟩ := goBest_eq_some_spec now vals (-1) p.1 p.2 (by rw [hg])
        push_neg
        exact ⟨p.1, p.2, hnt, hle⟩
  · intro i hi
    rw [highlightCurrentTimeRow, hb] at hi
    cases hg : goBest now vals (-1) with
    | none => rw [hg] at hi; cases hi
    | some p =>
      rw [hg] at hi
      simp only [] at hi
      injection hi with hi
      obtain ⟨hnt, hle, _, hall⟩ := goBest_eq_some_spec now vals (-1) p.1 p.2 (by rw [hg])
      have hip : i = p.1 := by omega
      subst hip
      refine ⟨by rw [hnt]; rfl, ?_⟩
      intro ti hti
      rw [hnt] at hti
      injection hti with hti
      subst hti
      exact ⟨hle, hall⟩

theorem bestScan_nil (now : ℚ) (n : Nat) (b : Option Nat) (bv : ℚ) :
    bestScan now [] n b bv = b := rfl

theorem bestScan_cons (now : ℚ) (v : CellVal) (rest : List CellVal) (n : Nat)
    (b : Option Nat) (bv : ℚ) :
    bestScan now (v :: rest) n b bv =
      match normalizeTime v with
      | none => bestScan now rest (n + 1) b bv
      | some t =>
        if t ≤ now + 1 / 10 ∧ bv < t then bestScan now rest (n + 1) (some n) t
        else bestScan now rest (n + 1) b bv := rfl

/-- Normalization of the hour value 8, needed to evaluate the scan on
concrete inputs without kernel rational arithmetic. -/
theorem normalizeTime_eight : normalizeTime (CellVal.num 8) = some 8 := by
  have h : normalizeTime (CellVal.num 8)
      = (if (0 : ℚ) ≤ 8 ∧ (8 : ℚ) ≤ 1 then some ((8 : ℚ) * 24)
         else if (0 : ℚ) ≤ 8 ∧ (8 : ℚ) ≤ 24 then some 8 else none) := rfl
  rw [h, if_neg (by norm_num), if_pos (by norm_num)]

/-- Normalization of the hour value 7. -/
theorem normalizeTime_seven : normalizeTime (CellVal.num 7) = some 7 := by
  have h : normalizeTime (CellVal.num 7)
      = (if (0 : ℚ) ≤ 7 ∧ (7 : ℚ) ≤ 1 then some ((7 : ℚ) * 24)
         else if (0 : ℚ) ≤ 7 ∧ (7 : ℚ) ≤ 24 then some 7 else none) := rfl
  rw [h, if_neg (by norm_num), if_pos (by norm_num)]

/-- The highlighter's choice on the column 7, 8, 8 at `now = 9`: row 1. -/
theorem bestScan_788 :
    highlightCurrentTimeRow [CellVal.num 7, CellVal.num 8, CellVal.num 8] 9 = some 1 := by
  have c1 : (7 : ℚ) ≤ 9 + 1 / 10 ∧ (-1 : ℚ) < 7 := by norm_num
  have c2 : (8 : ℚ) ≤ 9 + 1 / 10 ∧ (7 : ℚ) < 8 := by norm_num
  have c3 : ¬ ((8 : ℚ) ≤ 9 + 1 / 10 ∧ (8 : ℚ) < 8) := by norm_num
  show bestScan 9 [CellVal.num 7, CellVal.num 8, CellVal.num 8] 0 none (-1) = some 1
  rw [bestScan_cons, normalizeTime_seven]
  simp only []
  rw [if_pos c1, bestScan_cons, normalizeTime_eight]
  simp only []
  rw [if_pos c2, bestScan_cons, normalizeTime_eight]
  simp only []
  rw [if_neg c3, bestScan_nil]

/-- C6 witness: the characterization applied to the column 7, 8, 8 at
`now = 9` (the highlighted row 1 qualifies, and the earlier candidate 7 is
strictly below its value 8). -/
theorem time_highlight_earliest_max_witness :
    (normalizedTimeAt [CellVal.num 7, CellVal.num 8, CellVal.num 8] 1).isSome = true
    ∧ (8 : ℚ) ≤ 9 + 1 / 10
    ∧ (7 : ℚ) ≤ 8 := by
  have h := (time_highlight_earliest_max [CellVal.num 7, CellVal.num 8, CellVal.num 8] 9).2
    1 bestScan_788
  have h8 : normalizedTimeAt [CellVal.num 7, CellVal.num 8, CellVal.num 8] 1 = some 8 := by
    rw [show normalizedTimeAt [CellVal.num 7, CellVal.num 8, CellVal.num 8] 1
        = normalizeTime (CellVal.num 8) from rfl, normalizeTime_eight]
  have h7 : normalizedTimeAt [CellVal.num 7, CellVal.num 8, CellVal.num 8] 0 = some 7 := by
    rw [show normalizedTimeAt [CellVal.num 7, CellVal.num 8, CellVal.num 8] 0
        = normalizeTime (CellVal.num 7) from rfl, normalizeTime_seven]
  refine ⟨h.1, (h.2 8 h8).1, ?_⟩
  exact ((h.2 8 h8).2 0 7 h7 (by norm_num)).1

/-- C6 counterexample: with two identical qualifying candidates 8, 8 at
`now = 9`, the code highlights the EARLIEST row (index 0), not the latest
(index 1) as the claim's tie-break states. -/
theorem time_highlight_tie_earliest_cex :
    highlightCurrentTimeRow [CellVal.num 8, CellVal.num 8] 9 = some 0
    ∧ highlightCurrentTimeRow [CellVal.num 8, CellVal.num 8] 9 ≠ some 1 := by
  have c1 : (8 : ℚ) ≤ 9 + 1 / 10 ∧ (-1 : ℚ) < 8 := by norm_num
  have c2 : ¬ ((8 : ℚ) ≤ 9 + 1 / 10 ∧ (8 : ℚ) < 8) := by norm_num
  have h0 : highlightCurrentTimeRow [CellVal.num 8, CellVal.num 8] 9 = some 0 := by
    show bestScan 9 [CellVal.num 8, CellVal.num 8] 0 none (-1) = some 0
    rw [bestScan_cons, normalizeTime_eight]
    simp only []
    rw [if_pos c1, bestScan_cons, normalizeTime_eight]
    simp only []
    rw [if_neg c2, bestScan_nil]
  refine ⟨h0, ?_⟩
  rw [h0]
  simp

/-- The task filter of `randomPick`: `t[0] && t[0] !== ''` over the loaded
A4:A rows of the Tasks sheet. -/
def randomPickPool (tasksColA : List CellVal) : List CellVal :=
  tasksColA.filter truthy

/-- The fill loop of `randomPick`: walking the parallel B (time) and task
columns with running row offset `n`; a slot gets a randomly chosen pool entry
exactly when it has a time value and no task value.  `pick n` models the
`Math.floor(Math.random() * tasks.length)` draw of iteration `n` (reduced mod
the pool size, as the JS draw always lies in range). -/
def randomFillColumn (pool : List CellVal) (pick : Nat → Nat) :
    Nat → List CellVal → List CellVal → List CellVal
  | _, [], _ => []
  | _, _ :: _, [] => []
  | n, tv :: trest, av :: arest =>
    (if isNonEmptyCell tv && !isNonEmptyCell av then
      pool.getD (pick n % pool.length) CellVal.empty
     else av)
      :: randomFillColumn pool pick (n + 1) trest arest

/-- `randomPick` from weekly.js, restricted to the task column it writes:
`none` models the "no tasks available" abort (which writes nothing). -/
def randomPick (tasksColA : List CellVal) (pick : Nat → Nat)
    (timeVals taskVals : List CellVal) : Option (List CellVal) :=
  let pool := randomPickPool tasksColA
  if pool.isEmpty then none
  else some (randomFillColumn pool pick 0 timeVals taskVals)

/-- The task column after `randomPick` (the abort path leaves it unchanged). -/
def randomPickColumn (tasksColA : List CellVal) (pick : Nat → Nat)
    (timeVals taskVals : List CellVal) : List CellVal :=
  match randomPick tasksColA pick timeVals taskVals with
  | none => taskVals
  | some l => l

/-- A chosen pool entry is a pool member. -/
theorem randomPickPool_getD_mem (pool : List CellVal) (k : Nat) (h : ¬ pool.isEmpty = true) :
    pool.getD (k % pool.length) CellVal.empty ∈ pool := by
  have hlen : 0 < pool.length := by
    cases pool with
    | nil => simp at h
    | cons a l => simp
  have hk : k % pool.length < pool.length := Nat.mod_lt k hlen
  rw [List.getD_eq_getElem?_getD, List.getElem?_eq_getElem hk]
  exact List.getElem_mem hk

/-- Frame property of the fill loop, for every slot index. -/
theorem randomFillColumn_frame (pool : List CellVal) (pick : Nat → Nat) :
    ∀ (timeVals taskVals : List CellVal) (n i : Nat),
      timeVals.length = taskVals.length →
      (isNonEmptyCell (taskVals.getD i CellVal.empty) = true →
        (randomFillColumn pool pick n timeVals taskVals).getD i CellVal.empty
          = taskVals.getD i CellVal.empty)
      ∧ ((randomFillColumn pool pick n timeVals taskVals).getD i CellVal.empty
            ≠ taskVals.getD i CellVal.empty →
          isNonEmptyCell (timeVals.getD i CellVal.empty) = true
          ∧ isNonEmptyCell (taskVals.getD i CellVal.empty) = false
          ∧ ∃ k, (randomFillColumn pool pick n timeVals taskVals).getD i CellVal.empty
              = pool.getD (k % pool.length) CellVal.empty) := by
  intro timeVals
  induction timeVals with
  | nil =>
    intro taskVals n i hlen
    have : taskVals = [] := by
      cases taskVals with
      | nil => rfl
      | cons a l => simp at hlen
    subst this
    exact ⟨fun _ => rfl, fun hne => absurd rfl hne⟩
  | cons tv trest ih =>
    intro taskVals n i hlen
    cases taskVals with
    | nil => simp at hlen
    | cons av arest =>
      have hlen2 : trest.length = arest.length := by simpa using hlen
      cases i with
      | zero =>
        by_cases hcond : isNonEmptyCell tv && !isNonEmptyCell av
        · constructor
          · intro hset
            simp only [List.getD_cons_zero] at hset
            simp only [Bool.and_eq_true, Bool.not_eq_true'] at hcond
            rw [hcond.2] at hset
            cases hset
          · intro _
            simp only [randomFillColumn, hcond, if_true, List.getD_cons_zero]
            simp only [Bool.and_eq_true, Bool.not_eq_true'] at hcond
            exact ⟨hcond.1, hcond.2, pick n, rfl⟩
        · constructor
          · intro _
            simp only [randomFillColumn, List.getD_cons_zero]
            rw [if_neg (by simpa using hcond)]
          · intro hne
            exfalso
            apply hne
            simp only [randomFillColumn, List.getD_cons_zero]
            rw [if_neg (by simpa using hcond)]
      | succ i =>
        have hr := ih arest (n + 1) i hlen2
        constructor
        · intro hset
          simp only [List.getD_cons_succ] at hset ⊢
          simp only [randomFillColumn, List.getD_cons_succ]
          exact hr.1 hset
        · intro hne
          simp only [randomFillColumn, List.getD_cons_succ] at hne ⊢
          exact hr.2 hne

/-- C7 (confirmed): `randomPick` writes a pool task name only into slots that
have a time value and an empty task cell; every slot whose task cell already
holds a non-empty value keeps its exact value, and any slot that does change
had a time value, had no task, and now holds a member of the task pool
(including the abort path, which changes nothing). -/
theorem random_pick_frame (tasksColA : List CellVal) (pick : Nat → Nat)
    (timeVals taskVals : List CellVal) (i : Nat)
    (hlen : timeVals.length = taskVals.length) :
    (isNonEmptyCell (taskVals.getD i CellVal.empty) = true →
      (randomPickColumn tasksColA pick timeVals taskVals).getD i CellVal.empty
        = taskVals.getD i CellVal.empty)
    ∧ ((randomPickColumn tasksColA pick timeVals taskVals).getD i CellVal.empty
          ≠ taskVals.getD i CellVal.empty →
        isNonEmptyCell (timeVals.getD i CellVal.empty) = true
        ∧ isNonEmptyCell (taskVals.getD i CellVal.empty) = false
        ∧ (randomPickColumn tasksColA pick timeVals taskVals).getD i CellVal.empty
            ∈ randomPickPool tasksColA) := by
  by_cases hp : (randomPickPool tasksColA).isEmpty = true
  · have hnone : randomPick tasksColA pick timeVals taskVals = none := by
      show (if (randomPickPool tasksColA).isEmpty then none
            else some (randomFillColumn (randomPickPool tasksColA) pick 0 timeVals taskVals))
          = none
      rw [if_pos hp]
    have hcol : randomPickColumn tasksColA pick timeVals taskVals = taskVals := by
      unfold randomPickColumn
      rw [hnone]
    rw [hcol]
    exact ⟨fun _ => rfl, fun hne => absurd rfl hne⟩
  · have hsome : randomPick tasksColA pick timeVals taskVals
        = some (randomFillColumn (randomPickPool tasksColA) pick 0 timeVals taskVals) := by
      show (if (randomPickPool tasksColA).isEmpty then none
            else some (randomFillColumn (randomPickPool tasksColA) pick 0 timeVals taskVals))
          = some (randomFillColumn (randomPickPool tasksColA) pick 0 timeVals taskVals)
      rw [if_neg hp]
    have hcol : randomPickColumn tasksColA pick timeVals taskVals
        = randomFillColumn (randomPickPool tasksColA) pick 0 timeVals taskVals := by
      unfold randomPickColumn
      rw [hsome]
    rw [hcol]
    have hf := randomFillColumn_frame (randomPickPool tasksColA) pick timeVals taskVals 0 i hlen
    refine ⟨hf.1, ?_⟩
    intro hne
    obtain ⟨ht, ha, k, hk⟩ := hf.2 hne
    refine ⟨ht, ha, ?_⟩
    rw [hk]
    exact randomPickPool_getD_mem (randomPickPool tasksColA) k hp

/-- C7 witness: the frame theorem applied to a pool of one task "T", a
two-slot column with an occupied first slot and an empty timed second slot:
the occupied slot keeps its value. -/
theorem random_pick_frame_witness :
    (randomPickColumn [CellVal.str "T"] (fun _ => 0)
        [CellVal.num 1, CellVal.num 1] [CellVal.str "Busy", CellVal.empty]).getD 0 CellVal.empty
      = CellVal.str "Busy" :=
  (random_pick_frame [CellVal.str "T"] (fun _ => 0)
    [CellVal.num 1, CellVal.num 1] [CellVal.str "Busy", CellVal.empty] 0 (by decide)).1
    (by decide)

/-- The Summary sheet: date (A), positive (D), negative (E) and total (F)
columns, indexed by 1-based row. -/
structure SummarySheet where
  dateCol : Nat → CellVal
  posCol : Nat → CellVal
  negCol : Nat → CellVal
  totCol : Nat → CellVal

/-- Point update of a single-column function. -/
def setColCell (f : Nat → CellVal) (r : Nat) (v : CellVal) : Nat → CellVal :=
  fun j => if j = r then v else f j

/-- The row search of `updateSummary`: scan the loaded A1:A(summaryL+1)
values for the first row whose `String(value)` equals today's key. -/
def summaryFindRow (todayStr : String) (summaryL : Nat) (s : SummarySheet) : Option Nat :=
  ((List.range (summaryL + 1)).find?
    (fun i => decide (jsToString (s.dateCol (i + 1)) = todayStr))).map (fun i => i + 1)

/-- The three column writes of `updateSummary` on the resolved row: positive
added when strictly positive, negative when strictly negative, total always.
Each branch reads only a column the other branches never touch, so all reads
are against the incoming sheet. -/
def updateSummaryCells (p n : ℚ) (row : Nat) (s1 : SummarySheet) : SummarySheet :=
  { dateCol := s1.dateCol
  , posCol :=
      if 0 < p then
        setColCell s1.posCol row (CellVal.num (jsParseFloatOr 0 (s1.posCol row) + p))
      else s1.posCol
  , negCol :=
      if n < 0 then
        setColCell s1.negCol row (CellVal.num (jsParseFloatOr 0 (s1.negCol row) + n))
      else s1.negCol
  , totCol := setColCell s1.totCol row (CellVal.num (jsParseFloatOr 0 (s1.totCol row) + p + n)) }

/-- `updateSummary` from weekly.js: find today's row in the date column, or
append it at row summaryL+1 (writing today's key there and growing summaryL),
then apply the three column writes. -/
def updateSummary (todayStr : String) (p n : ℚ) (s : SummarySheet) (summaryL : Nat) :
    SummarySheet × Nat :=
  match summaryFindRow todayStr summaryL s with
  | some row => (updateSummaryCells p n row s, summaryL)
  | none =>
    (updateSummaryCells p n (summaryL + 1)
      { s with dateCol := setColCell s.dateCol (summaryL + 1) (CellVal.str todayStr) },
     summaryL + 1)

/-- With a strictly positive score and zero negative score, `updateSummary`
adds the score to the positive and total cells of the resolved row and leaves
the negative column alone. -/
theorem updateSummary_pos_apply (todayStr : String) (p : ℚ) (s : SummarySheet)
    (summaryL : Nat) (hp : 0 < p) :
    (updateSummary todayStr p 0 s summaryL).1.posCol
        ((summaryFindRow todayStr summaryL s).getD (summaryL + 1))
      = CellVal.num (jsParseFloatOr 0
          (s.posCol ((summaryFindRow todayStr summaryL s).getD (summaryL + 1))) + p)
    ∧ (updateSummary todayStr p 0 s summaryL).1.totCol
        ((summaryFindRow todayStr summaryL s).getD (summaryL + 1))
      = CellVal.num (jsParseFloatOr 0
          (s.totCol ((summaryFindRow todayStr summaryL s).getD (summaryL + 1))) + p)
    ∧ (updateSummary todayStr p 0 s summaryL).1.negCol = s.negCol := by
  unfold updateSummary
  cases hfound : summaryFindRow todayStr summaryL s with
  | some r =>
    simp only [Option.getD_some]
    unfold updateSummaryCells
    rw [if_pos hp, if_neg (lt_irrefl 0)]
    refine ⟨by simp [setColCell], by simp [setColCell], rfl⟩
  | none =>
    simp only [Option.getD_none]
    unfold updateSummaryCells
    rw [if_pos hp, if_neg (lt_irrefl 0)]
    refine ⟨by simp [setColCell], by simp [setColCell], rfl⟩

/-- One row of the Tasks sheet: name (A), weight (B), created (C),
lastUsed (D), count (F), cumulative score (G). -/
structure TaskRow where
  name : CellVal
  weight : CellVal
  created : CellVal
  lastUsed : CellVal
  count : CellVal
  cumScore : CellVal

/-- The Tasks sheet, indexed by 1-based row (data starts at row 4). -/
structure TasksSheet where
  rows : Nat → TaskRow

/-- Row replacement on the Tasks sheet. -/
def TasksSheet.set (t : TasksSheet) (i : Nat) (r : TaskRow) : TasksSheet :=
  ⟨fun j => if j = i then r else t.rows j⟩

/-- Combined mutable state touched by the score pipeline. -/
structure ScoreState where
  weekly : WeeklySheet
  tasks : TasksSheet
  taskl : Nat
  summary : SummarySheet
  summaryL : Nat

/-- The loaded A4:A(taskl) name column of the Tasks sheet. -/
def taskNames (tasks : TasksSheet) (taskl : Nat) : List CellVal :=
  (List.range (taskl - 3)).map (fun k => (tasks.rows (k + 4)).name)

/-- The `othersIndex` bookkeeping of the search loop: index of the last
occurrence of the name "others" seen so far. -/
def lastIdxOthersAux : Nat → Option Nat → List CellVal → Option Nat
  | _, acc, [] => acc
  | i, acc, v :: rest =>
    lastIdxOthersAux (i + 1) (if v = CellVal.str "others" then some i else acc) rest

def lastIdxOthers (names : List CellVal) : Option Nat := lastIdxOthersAux 0 none names

/-- The task-resolution phase of `processWeeklyScoreChange`: find the task by
exact name match (first hit wins, weight from column B with `|| 1` fallback);
otherwise fall back to the last "others" row; otherwise create "others" at row
taskl+1 with weight cell 1 (the in-memory weight variable stays at its
initial 1) and grow taskl.  Returns (taskIndex, weight, tasks sheet, taskl). -/
def resolveTask (nowStr : String) (tasks : TasksSheet) (taskl : Nat) (taskName : CellVal) :
    Nat × ℚ × TasksSheet × Nat :=
  match (taskNames tasks taskl).findIdx? (fun v => decide (v = taskName)) with
  | some i => (i + 4, jsParseFloatOr 1 (tasks.rows (i + 4)).weight, tasks, taskl)
  | none =>
    match lastIdxOthers (taskNames tasks taskl) with
    | some j => (j + 4, jsParseFloatOr 1 (tasks.rows (j + 4)).weight, tasks, taskl)
    | none =>
      (taskl + 1, 1,
       TasksSheet.set tasks (taskl + 1)
         { tasks.rows (taskl + 1) with
             name := CellVal.str "others"
           , weight := CellVal.num 1
           , created := CellVal.str nowStr },
       taskl + 1)

/-- The cell colors written by the pipeline. -/
def scoreColor (ws : ℚ) : String :=
  if 0 < ws then "#70AD47" else if ws < 0 then "#ED7D31" else "#FFC000"

/-- Result of the score pipeline. -/
structure ScoreChangeResult where
  state : ScoreState
  weightedScore : ℚ
  performed : Bool

/-- The write phase of `processWeeklyScoreChange`, given the resolved task
quadruple `res = (taskIndex, weight, tasks, taskl)`: color the score and task
cells, add the weighted score to the daily total at (col, 38), update the
Summary, and bump lastUsed / count / cumulative score of the resolved task
row.  Every read happens before the write of the same cell, so all reads are
against the incoming state. -/
def processScoreResolved (nowStr todayStr : String) (st : ScoreState)
    (row col : Nat) (newScore : ℚ) (res : Nat × ℚ × TasksSheet × Nat) : ScoreChangeResult :=
  { state :=
    { weekly :=
      { cells := setCell st.weekly.cells col 38
          (CellVal.num (jsParseFloatOr 0 (st.weekly.cells col 38) + res.2.1 * newScore))
      , fill := fun c r =>
          if (c = col ∨ c = col - 1) ∧ r = row then some (scoreColor (res.2.1 * newScore))
          else st.weekly.fill c r }
    , tasks := TasksSheet.set res.2.2.1 res.1
        { (res.2.2.1).rows res.1 with
            lastUsed := CellVal.str nowStr
          , count := CellVal.num ((jsParseIntOr 0 ((res.2.2.1).rows res.1).count + 1 : ℤ) : ℚ)
          , cumScore := CellVal.num
              (jsParseFloatOr 0 ((res.2.2.1).rows res.1).cumScore + res.2.1 * newScore) }
    , taskl := res.2.2.2
    , summary := (updateSummary todayStr
        (if 0 < res.2.1 * newScore then res.2.1 * newScore else 0)
        (if res.2.1 * newScore < 0 then res.2.1 * newScore else 0) st.summary st.summaryL).1
    , summaryL := (updateSummary todayStr
        (if 0 < res.2.1 * newScore then res.2.1 * newScore else 0)
        (if res.2.1 * newScore < 0 then res.2.1 * newScore else 0) st.summary st.summaryL).2 }
  , weightedScore := res.2.1 * newScore
  , performed := true }

/-- `processWeeklyScoreChange` from weekly.js: read the task name from the
column left of the changed score cell; abort silently when it is falsy;
otherwise resolve the task and perform the writes. -/
def processWeeklyScoreChange (nowStr todayStr : String) (st : ScoreState)
    (row col : Nat) (newScore : ℚ) : ScoreChangeResult :=
  if truthy (st.weekly.cells (col - 1) row) then
    processScoreResolved nowStr todayStr st row col newScore
      (resolveTask nowStr st.tasks st.taskl (st.weekly.cells (col - 1) row))
  else ⟨st, 0, false⟩

/-- C2 (confirmed): a score edit of 0.6 in a recognized score column of the
data-row range, in a row whose task cell holds a ledger name whose weight
parses to 2, yields weighted score 1.2 = 6/5; the pipeline adds 6/5 to the
day's totals-row cell (col, 38), adds 6/5 to today's Summary positive column
and to the Summary total column, increments the task's use count by 1 and its
cumulative score by 6/5. -/
theorem score_change_weighted_propagation
    (nowStr todayStr name : String) (st : ScoreState) (row col i : Nat)
    (hcol : col ∈ SCORE_COLUMNS) (hrow1 : 5 ≤ row) (hrow2 : row ≤ 36)
    (hname : st.weekly.cells (col - 1) row = CellVal.str name) (hne : name ≠ "")
    (hfind : (taskNames st.tasks st.taskl).findIdx?
        (fun v => decide (v = CellVal.str name)) = some i)
    (hweight : jsParseFloatOr 1 (st.tasks.rows (i + 4)).weight = 2) :
    (processWeeklyScoreChange nowStr todayStr st row col (3 / 5)).weightedScore = 6 / 5
    ∧ (processWeeklyScoreChange nowStr todayStr st row col (3 / 5)).state.weekly.cells col 38
        = CellVal.num (jsParseFloatOr 0 (st.weekly.cells col 38) + 6 / 5)
    ∧ (processWeeklyScoreChange nowStr todayStr st row col (3 / 5)).state.summary.posCol
        ((summaryFindRow todayStr st.summaryL st.summary).getD (st.summaryL + 1))
        = CellVal.num (jsParseFloatOr 0 (st.summary.posCol
            ((summaryFindRow todayStr st.summaryL st.summary).getD (st.summaryL + 1))) + 6 / 5)
    ∧ (processWeeklyScoreChange nowStr todayStr st row col (3 / 5)).state.summary.totCol
        ((summaryFindRow todayStr st.summaryL st.summary).getD (st.summaryL + 1))
        = CellVal.num (jsParseFloatOr 0 (st.summary.totCol
            ((summaryFindRow todayStr st.summaryL st.summary).getD (st.summaryL + 1))) + 6 / 5)
    ∧ ((processWeeklyScoreChange nowStr todayStr st row col (3 / 5)).state.tasks.rows (i + 4)).count
        = CellVal.num ((jsParseIntOr 0 (st.tasks.rows (i + 4)).count + 1 : ℤ) : ℚ)
    ∧ ((processWeeklyScoreChange nowStr todayStr st row col (3 / 5)).state.tasks.rows (i + 4)).cumScore
        = CellVal.num (jsParseFloatOr 0 (st.tasks.rows (i + 4)).cumScore + 6 / 5) := by
  have htr : truthy (CellVal.str name) = true := by simp [truthy, hne]
  have hres : resolveTask nowStr st.tasks st.taskl (CellVal.str name)
      = (i + 4, 2, st.tasks, st.taskl) := by
    unfold resolveTask
    rw [hfind]
    simp only []
    rw [hweight]
  have hrun : processWeeklyScoreChange nowStr todayStr st row col (3 / 5)
      = processScoreResolved nowStr todayStr st row col (3 / 5) (i + 4, 2, st.tasks, st.taskl) := by
    unfold processWeeklyScoreChange
    rw [hname, if_pos htr, hres]
  rw [hrun]
  have hws : (2 : ℚ) * (3 / 5) = 6 / 5 := by norm_num
  have hpos : (if 0 < (2 : ℚ) * (3 / 5) then (2 : ℚ) * (3 / 5) else 0) = (6 / 5 : ℚ) := by
    rw [if_pos (by norm_num)]
    exact hws
  have hneg : (if (2 : ℚ) * (3 / 5) < 0 then (2 : ℚ) * (3 / 5) else 0) = (0 : ℚ) := by
    rw [if_neg (by norm_num)]
  have hsum := updateSummary_pos_apply todayStr (6 / 5) st.summary st.summaryL (by norm_num)
  refine ⟨hws, ?_, ?_, ?_, ?_, ?_⟩
  · show setCell st.weekly.cells col 38
        (CellVal.num (jsParseFloatOr 0 (st.weekly.cells col 38) + 2 * (3 / 5))) col 38 = _
    simp [setCell, hws]
  · show (updateSummary todayStr
        (if 0 < (2 : ℚ) * (3 / 5) then (2 : ℚ) * (3 / 5) else 0)
        (if (2 : ℚ) * (3 / 5) < 0 then (2 : ℚ) * (3 / 5) else 0) st.summary st.summaryL).1.posCol _ = _
    rw [hpos, hneg]
    exact hsum.1
  · show (updateSummary todayStr
        (if 0 < (2 : ℚ) * (3 / 5) then (2 : ℚ) * (3 / 5) else 0)
        (if (2 : ℚ) * (3 / 5) < 0 then (2 : ℚ) * (3 / 5) else 0) st.summary st.summaryL).1.totCol _ = _
    rw [hpos, hneg]
    exact hsum.2.1
  · simp only [processScoreResolved]
    simp [TasksSheet.set]
  · simp only [processScoreResolved]
    simp [TasksSheet.set, hws]

/-- A one-task ledger: row 4 holds "Deep Work" with weight 2, use count 5 and
cumulative score 42/5. -/
def scoreTasksW : TasksSheet :=
  ⟨fun j =>
    if j = 4 then
      ⟨CellVal.str "Deep Work", CellVal.num 2, CellVal.empty, CellVal.empty,
       CellVal.num 5, CellVal.num (42 / 5)⟩
    else ⟨CellVal.empty, CellVal.empty, CellVal.empty, CellVal.empty, CellVal.empty, CellVal.empty⟩⟩

/-- A concrete pipeline state: C5 holds "Deep Work", everything else empty,
Summary empty with summaryL = 1. -/
def scoreStateW : ScoreState :=
  ⟨⟨fun c r => if c = 3 ∧ r = 5 then CellVal.str "Deep Work" else CellVal.empty,
    fun _ _ => none⟩,
   scoreTasksW, 4,
   ⟨fun _ => CellVal.empty, fun _ => CellVal.empty, fun _ => CellVal.empty, fun _ => CellVal.empty⟩,
   1⟩

/-- C2 witness: the pipeline theorem applied at column D (4), row 5, score
0.6 on `scoreStateW`: weighted score 6/5, daily total D38 becomes 6/5,
Summary positive and total cells of the created row 2 become 6/5, the
ledger's use count becomes 6 and its cumulative score 42/5 + 6/5 = 48/5. -/
theorem score_change_weighted_propagation_witness :
    (processWeeklyScoreChange "20241218 10:00:00" "20241218" scoreStateW 5 4 (3 / 5)).weightedScore
      = 6 / 5
    ∧ (processWeeklyScoreChange "20241218 10:00:00" "20241218" scoreStateW 5 4 (3 / 5)).state.weekly.cells 4 38
      = CellVal.num (6 / 5)
    ∧ (processWeeklyScoreChange "20241218 10:00:00" "20241218" scoreStateW 5 4 (3 / 5)).state.summary.posCol 2
      = CellVal.num (6 / 5)
    ∧ (processWeeklyScoreChange "20241218 10:00:00" "20241218" scoreStateW 5 4 (3 / 5)).state.summary.totCol 2
      = CellVal.num (6 / 5)
    ∧ ((processWeeklyScoreChange "20241218 10:00:00" "20241218" scoreStateW 5 4 (3 / 5)).state.tasks.rows 4).count
      = CellVal.num 6
    ∧ ((processWeeklyScoreChange "20241218 10:00:00" "20241218" scoreStateW 5 4 (3 / 5)).state.tasks.rows 4).cumScore
      = CellVal.num (48 / 5) := by
  have hrow2 : (summaryFindRow "20241218" scoreStateW.summaryL scoreStateW.summary).getD
      (scoreStateW.summaryL + 1) = 2 := by decide
  have h := score_change_weighted_propagation "20241218 10:00:00" "20241218" "Deep Work"
    scoreStateW 5 4 0 (by decide) (by decide) (by decide) (by decide) (by decide)
    (by decide) (by decide)
  refine ⟨h.1, ?_, ?_, ?_, ?_, ?_⟩
  · refine h.2.1.trans ?_
    norm_num [jsParseFloatOr, jsParseFloatVal, scoreStateW]
  · have h3 := h.2.2.1
    rw [hrow2] at h3
    refine h3.trans ?_
    norm_num [jsParseFloatOr, jsParseFloatVal, scoreStateW]
  · have h4 := h.2.2.2.1
    rw [hrow2] at h4
    refine h4.trans ?_
    norm_num [jsParseFloatOr, jsParseFloatVal, scoreStateW]
  · refine h.2.2.2.2.1.trans ?_
    norm_num [jsParseIntOr, jsParseIntVal, ratTrunc, scoreStateW, scoreTasksW]
  · refine h.2.2.2.2.2.trans ?_
    norm_num [jsParseFloatOr, jsParseFloatVal, scoreStateW, scoreTasksW]

/-- The visible outcome of `handleWeeklySelection`.  Only `runRandomPick`
(control-row button I2) leads to cell writes; every other branch merely shows
UI feedback. -/
inductive SelectionOutcome where
  | toggleHelp
  | toggleAdd
  | toggleDelete
  | runRandomPick
  | toggleThank
  | taskPrompt
  | warnSelectTask
  | scoreLocked
  | scorePrompt
  | noAction
deriving DecidableEq

/-- Whether an outcome performs any cell write (`randomPick` is the only
selection-triggered action that writes values). -/
def selectionWrites : SelectionOutcome → Bool
  | SelectionOutcome.runRandomPick => true
  | _ => false

/-- `handleWeeklySelection` from weekly.js: control-row buttons on row 2;
task columns in rows 5..36 prompt for a task; score columns in rows 5..37
check the task cell to the left (warn when falsy), then refuse modification
when the score cell is already non-empty, else prompt for a score. -/
def handleWeeklySelection (s : WeeklySheet) (colIndex row : Nat) : SelectionOutcome :=
  if row = 2 then
    if colIndex = 3 then SelectionOutcome.toggleHelp
    else if colIndex = 5 then SelectionOutcome.toggleAdd
    else if colIndex = 7 then SelectionOutcome.toggleDelete
    else if colIndex = 9 then SelectionOutcome.runRandomPick
    else if colIndex = 11 then SelectionOutcome.toggleThank
    else SelectionOutcome.noAction
  else if colIndex ∈ TASK_COLUMNS ∧ 5 ≤ row ∧ row ≤ 36 then SelectionOutcome.taskPrompt
  else if colIndex ∈ SCORE_COLUMNS ∧ 5 ≤ row ∧ row < 38 then
    if truthy (s.cells (colIndex - 1) row) = false then SelectionOutcome.warnSelectTask
    else if isNonEmptyCell (s.cells colIndex row) then SelectionOutcome.scoreLocked
    else SelectionOutcome.scorePrompt
  else SelectionOutcome.noAction

/-- `handleCellChanged` from events.js, as the decision it takes: the
`(row, colIndex, parsed score)` with which it invokes
`processWeeklyScoreChange`, or `none` when it ignores the change.  It guards
only on the active sheet, the address shape, the score-column/data-row range
and a NaN check on the new value — it never consults any previous value of
the cell. -/
def handleCellChangedDecision (currentSheet : String) (s : WeeklySheet)
    (address : String) : Option (Nat × Nat × ℚ) :=
  if currentSheet = "Weekly" then
    match parseAddress address with
    | none => none
    | some p =>
      if p.colIndex ∈ SCORE_COLUMNS ∧ 5 ≤ p.row ∧ p.row ≤ 36 then
        match jsParseFloatVal (s.cells p.colIndex p.row) with
        | none => none
        | some q => some (p.row, p.colIndex, q)
      else none
  else none

/-- C3 (corrected): selecting a score cell that already holds a non-empty
value (in a row whose task cell is set) yields the "can't be modified" status
and performs no write; but the change pipeline does not enforce the
immutability — a direct edit of that same cell is still processed into a new
score whenever the new value parses as a number. -/
theorem score_lock_selection_only
    (s : WeeklySheet) (col row : Nat) (v : CellVal) (q : ℚ) (addr : String) (pa : ParsedAddress)
    (hcol : col ∈ SCORE_COLUMNS) (hr1 : 5 ≤ row) (hr2 : row ≤ 36)
    (htask : truthy (s.cells (col - 1) row) = true)
    (hscore : isNonEmptyCell (s.cells col row) = true)
    (hparse : parseAddress addr = some pa) (hpc : pa.colIndex = col) (hpr : pa.row = row)
    (hv : jsParseFloatVal v = some q) :
    handleWeeklySelection s col row = SelectionOutcome.scoreLocked
    ∧ selectionWrites (handleWeeklySelection s col row) = false
    ∧ handleCellChangedDecision "Weekly" (writeCell s col row v) addr = some (row, col, q) := by
  have hnat : ¬ (col ∈ TASK_COLUMNS ∧ 5 ≤ row ∧ row ≤ 36) := by
    intro hmem
    have h1 : col ∈ SCORE_COLUMNS := hcol
    have h2 : col ∈ TASK_COLUMNS := hmem.1
    simp only [SCORE_COLUMNS] at h1
    fin_cases h1 <;> simp [TASK_COLUMNS] at h2
  have hsel : handleWeeklySelection s col row = SelectionOutcome.scoreLocked := by
    unfold handleWeeklySelection
    rw [if_neg (by omega), if_neg hnat, if_pos ⟨hcol, hr1, by omega⟩,
      if_neg (by rw [htask]; simp), if_pos hscore]
  have hdec : handleCellChangedDecision "Weekly" (writeCell s col row v) addr
      = some (row, col, q) := by
    unfold handleCellChangedDecision
    rw [if_pos rfl, hparse]
    simp only []
    rw [if_pos ⟨by rw [hpc]; exact hcol, by rw [hpr]; exact hr1, by rw [hpr]; exact hr2⟩]
    have hcell : (writeCell s col row v).cells pa.colIndex pa.row = v := by
      unfold writeCell setCell
      simp only []
      rw [if_pos ⟨by rw [hpc], by rw [hpr]⟩]
    rw [hcell, hv]
    simp only []
    rw [hpc, hpr]
  exact ⟨hsel, by rw [hsel]; rfl, hdec⟩

/-- A Weekly sheet whose D5 already holds the score 0.6 with task "T" in C5. -/
def lockedSheet : WeeklySheet :=
  ⟨fun c r =>
    if c = 3 ∧ r = 5 then CellVal.str "T"
    else if c = 4 ∧ r = 5 then CellVal.num (3 / 5)
    else CellVal.empty,
   fun _ _ => none⟩

/-- C3 witness: the theorem applied to `lockedSheet` at D5 with a new value
0.4 — selection is refused without a write, yet the change decision still
processes the edit into the score 2/5. -/
theorem score_lock_selection_only_witness :
    handleWeeklySelection lockedSheet 4 5 = SelectionOutcome.scoreLocked
    ∧ selectionWrites (handleWeeklySelection lockedSheet 4 5) = false
    ∧ handleCellChangedDecision "Weekly" (writeCell lockedSheet 4 5 (CellVal.num (2 / 5))) "D5"
        = some (5, 4, 2 / 5) :=
  score_lock_selection_only lockedSheet 4 5 (CellVal.num (2 / 5)) (2 / 5) "D5" ⟨"D", 4, 5⟩
    (by decide) (by decide) (by decide) (by decide) (by decide) (by decide) (by decide)
    (by decide) rfl

/-- C3 counterexample: D5 of `lockedSheet` already holds the non-empty score
0.6, yet after a direct edit to 0.4 the change handler still processes the
cell into a new score — the pipeline does not make a once-set score cell
immutable. -/
theorem score_cell_change_reprocessed_cex :
    isNonEmptyCell (lockedSheet.cells 4 5) = true
    ∧ handleCellChangedDecision "Weekly" (writeCell lockedSheet 4 5 (CellVal.num (2 / 5))) "D5"
        ≠ none := by
  constructor
  · decide
  · decide

/-- The Habits sheet: name (A=1), label (B=2), base score (C=3), day columns
D..Q (4..17), total (R=18); cells and fill colors by 1-based (column, row). -/
structure HabitsSheet where
  cells : Nat → Nat → CellVal
  fill : Nat → Nat → Option String

/-- The streak loop of `recordHabitDone`: walking backward from day
`idx - 1`, count consecutive day cells that are truthy (the source condition
`cell && cell !== 0` coincides with JS truthiness on loaded cell values),
stopping at the first falsy cell.  `vals d` is the day-`d` cell of the row. -/
def habitStreak (vals : Nat → CellVal) : Nat → Nat
  | 0 => 0
  | d + 1 => if truthy (vals d) then habitStreak vals d + 1 else 0

/-- `weightedScore = baseScore * STREAK_MULTIPLIER ^ streak` with
`baseScore = parseFloat(C cell) || 1` and multiplier 1.1. -/
def habitWeighted (hs : HabitsSheet) (idx row : Nat) : ℚ :=
  jsParseFloatOr 1 (hs.cells 3 row)
    * (11 / 10) ^ habitStreak (fun d => hs.cells (4 + d) row) idx

/-- Result of `recordHabitDone`. -/
structure HabitRecordResult where
  habits : HabitsSheet
  summary : SummarySheet
  summaryL : Nat
  weightedScore : ℚ
  streak : Nat
  performed : Bool

/-- The write phase of `recordHabitDone` once the day index is resolved and
the habit name is non-empty: increment today's day cell (column 4+idx), then
the row total (column 18, read after the day write), color the label cell,
and push the weighted score into the Summary as a positive-only update. -/
def recordHabitResolved (todayStr : String) (idx : Nat) (hs : HabitsSheet)
    (sum : SummarySheet) (sl : Nat) (row : Nat) : HabitRecordResult :=
  { habits :=
    { cells := setCell
        (setCell hs.cells (4 + idx) row
          (CellVal.num ((jsParseIntOr 0 (hs.cells (4 + idx) row) + 1 : ℤ) : ℚ)))
        18 row
        (CellVal.num ((jsParseIntOr 0
            (setCell hs.cells (4 + idx) row
              (CellVal.num ((jsParseIntOr 0 (hs.cells (4 + idx) row) + 1 : ℤ) : ℚ)) 18 row)
            + 1 : ℤ) : ℚ))
    , fill := fun c r => if c = 2 ∧ r = row then some "#70AD47" else hs.fill c r }
  , summary := (updateSummary todayStr (habitWeighted hs idx row) 0 sum sl).1
  , summaryL := (updateSummary todayStr (habitWeighted hs idx row) 0 sum sl).2
  , weightedScore := habitWeighted hs idx row
  , streak := habitStreak (fun d => hs.cells (4 + d) row) idx
  , performed := true }

/-- `recordHabitDone` from habits.js: abort (status only, no write) when the
current day index is unresolved (-1) or when the habit name cell is falsy,
else perform the resolved writes. -/
def recordHabitDone (todayStr : String) (currentDayIndex : ℤ) (hs : HabitsSheet)
    (sum : SummarySheet) (sl : Nat) (row : Nat) : HabitRecordResult :=
  if currentDayIndex < 0 then ⟨hs, sum, sl, 0, 0, false⟩
  else if truthy (hs.cells 1 row) then
    recordHabitResolved todayStr currentDayIndex.toNat hs sum sl row
  else ⟨hs, sum, sl, 0, 0, false⟩

/-- Common description of a resolved `recordHabitDone` run: it performs, its
streak is the backward-consecutive count, its weighted score follows the
multiplier formula, today's day cell and the row total are each incremented
by exactly 1 (as parsed counts), and the Summary is updated positively. -/
theorem recordHabitDone_spec (todayStr : String) (ci : ℤ) (hs : HabitsSheet)
    (sum : SummarySheet) (sl : Nat) (row idx : Nat)
    (hci : ci = (idx : ℤ)) (hidx : idx ≤ 13)
    (hname : truthy (hs.cells 1 row) = true) :
    (recordHabitDone todayStr ci hs sum sl row).performed = true
    ∧ (recordHabitDone todayStr ci hs sum sl row).streak
        = habitStreak (fun d => hs.cells (4 + d) row) idx
    ∧ (recordHabitDone todayStr ci hs sum sl row).weightedScore
        = jsParseFloatOr 1 (hs.cells 3 row)
          * (11 / 10) ^ habitStreak (fun d => hs.cells (4 + d) row) idx
    ∧ (recordHabitDone todayStr ci hs sum sl row).habits.cells (4 + idx) row
        = CellVal.num ((jsParseIntOr 0 (hs.cells (4 + idx) row) + 1 : ℤ) : ℚ)
    ∧ (recordHabitDone todayStr ci hs sum sl row).habits.cells 18 row
        = CellVal.num ((jsParseIntOr 0 (hs.cells 18 row) + 1 : ℤ) : ℚ)
    ∧ (recordHabitDone todayStr ci hs sum sl row).summary
        = (updateSummary todayStr (habitWeighted hs idx row) 0 sum sl).1 := by
  have hrun : recordHabitDone todayStr ci hs sum sl row
      = recordHabitResolved todayStr idx hs sum sl row := by
    unfold recordHabitDone
    rw [if_neg (by rw [hci]; exact not_lt.mpr (Int.natCast_nonneg idx)), if_pos hname, hci]
    norm_num
  rw [hrun]
  unfold recordHabitResolved
  refine ⟨rfl, rfl, ?_, ?_, ?_, rfl⟩
  · unfold habitWeighted
    rfl
  · show setCell (setCell hs.cells (4 + idx) row _) 18 row _ (4 + idx) row = _
    unfold setCell
    rw [if_neg (by omega), if_pos ⟨rfl, rfl⟩]
  · show setCell (setCell hs.cells (4 + idx) row _) 18 row _ 18 row = _
    unfold setCell
    rw [if_pos ⟨rfl, rfl⟩, if_neg (by omega)]

/-- C5 (confirmed): for a habit row with a resolved current day index, a
truthy name and a positive parsed base score `b`, `recordHabitDone` computes
the streak by walking backward from `currentDayIndex - 1` over truthy day
cells, records `b * 1.1 ^ streak` as the weighted score into the Summary
positive column (and total column), and increments today's completion count
and the row total by 1 each. -/
theorem habit_streak_weighted_record (todayStr : String) (ci : ℤ) (hs : HabitsSheet)
    (sum : SummarySheet) (sl : Nat) (row idx : Nat) (b : ℚ)
    (hci : ci = (idx : ℤ)) (hidx : idx ≤ 13)
    (hname : truthy (hs.cells 1 row) = true)
    (hbase : jsParseFloatOr 1 (hs.cells 3 row) = b) (hb : 0 < b) :
    (recordHabitDone todayStr ci hs sum sl row).performed = true
    ∧ (recordHabitDone todayStr ci hs sum sl row).streak
        = habitStreak (fun d => hs.cells (4 + d) row) idx
    ∧ (recordHabitDone todayStr ci hs sum sl row).weightedScore
        = b * (11 / 10) ^ habitStreak (fun d => hs.cells (4 + d) row) idx
    ∧ (recordHabitDone todayStr ci hs sum sl row).habits.cells (4 + idx) row
        = CellVal.num ((jsParseIntOr 0 (hs.cells (4 + idx) row) + 1 : ℤ) : ℚ)
    ∧ (recordHabitDone todayStr ci hs sum sl row).habits.cells 18 row
        = CellVal.num ((jsParseIntOr 0 (hs.cells 18 row) + 1 : ℤ) : ℚ)
    ∧ (recordHabitDone todayStr ci hs sum sl row).summary.posCol
        ((summaryFindRow todayStr sl sum).getD (sl + 1))
        = CellVal.num (jsParseFloatOr 0
            (sum.posCol ((summaryFindRow todayStr sl sum).getD (sl + 1)))
          + b * (11 / 10) ^ habitStreak (fun d => hs.cells (4 + d) row) idx)
    ∧ (recordHabitDone todayStr ci hs sum sl row).summary.totCol
        ((summaryFindRow todayStr sl sum).getD (sl + 1))
        = CellVal.num (jsParseFloatOr 0
            (sum.totCol ((summaryFindRow todayStr sl sum).getD (sl + 1)))
          + b * (11 / 10) ^ habitStreak (fun d => hs.cells (4 + d) row) idx) := by
  obtain ⟨hp, hstr, hws, hday, htot, hsummary⟩ :=
    recordHabitDone_spec todayStr ci hs sum sl row idx hci hidx hname
  have hwval : habitWeighted hs idx row
      = b * (11 / 10) ^ habitStreak (fun d => hs.cells (4 + d) row) idx := by
    unfold habitWeighted
    rw [hbase]
  have hwpos : 0 < b * (11 / 10) ^ habitStreak (fun d => hs.cells (4 + d) row) idx :=
    mul_pos hb (pow_pos (by norm_num) _)
  have hsum := updateSummary_pos_apply todayStr
    (b * (11 / 10) ^ habitStreak (fun d => hs.cells (4 + d) row) idx) sum sl hwpos
  refine ⟨hp, hstr, by rw [hws, hbase], hday, htot, ?_, ?_⟩
  · rw [hsummary, hwval]
    exact hsum.1
  · rw [hsummary, hwval]
    exact hsum.2.1

/-- C10 (confirmed): when the base-score cell is empty or non-numeric
(`parseFloat` gives NaN), `recordHabitDone` does not abort: the base score
defaults to 1, the recorded weighted score is `1.1 ^ streak`, and today's
completion count and the row total are still incremented by exactly 1. -/
theorem habit_missing_base_score_default (todayStr : String) (ci : ℤ) (hs : HabitsSheet)
    (sum : SummarySheet) (sl : Nat) (row idx : Nat)
    (hci : ci = (idx : ℤ)) (hidx : idx ≤ 13)
    (hname : truthy (hs.cells 1 row) = true)
    (hbase : jsParseFloatVal (hs.cells 3 row) = none) :
    (recordHabitDone todayStr ci hs sum sl row).performed = true
    ∧ (recordHabitDone todayStr ci hs sum sl row).weightedScore
        = (11 / 10) ^ habitStreak (fun d => hs.cells (4 + d) row) idx
    ∧ (recordHabitDone todayStr ci hs sum sl row).habits.cells (4 + idx) row
        = CellVal.num ((jsParseIntOr 0 (hs.cells (4 + idx) row) + 1 : ℤ) : ℚ)
    ∧ (recordHabitDone todayStr ci hs sum sl row).habits.cells 18 row
        = CellVal.num ((jsParseIntOr 0 (hs.cells 18 row) + 1 : ℤ) : ℚ) := by
  obtain ⟨hp, _, hws, hday, htot, _⟩ :=
    recordHabitDone_spec todayStr ci hs sum sl row idx hci hidx hname
  have hb1 : jsParseFloatOr 1 (hs.cells 3 row) = 1 := by
    unfold jsParseFloatOr
    rw [hbase]
  refine ⟨hp, ?_, hday, htot⟩
  rw [hws, hb1, one_mul]

/-- An empty Summary sheet for the habit witnesses. -/
def emptySummaryW : SummarySheet :=
  ⟨fun _ => CellVal.empty, fun _ => CellVal.empty, fun _ => CellVal.empty, fun _ => CellVal.empty⟩

/-- A Habits sheet: row 4 is "Exercise" with base score 5, completions on
days 0 and 1, row total 7. -/
def habitsSheetW : HabitsSheet :=
  ⟨fun c r =>
    if c = 1 ∧ r = 4 then CellVal.str "Exercise"
    else if c = 3 ∧ r = 4 then CellVal.num 5
    else if c = 4 ∧ r = 4 then CellVal.num 1
    else if c = 5 ∧ r = 4 then CellVal.num 1
    else if c = 18 ∧ r = 4 then CellVal.num 7
    else CellVal.empty,
   fun _ _ => none⟩

/-- C5 witness: the habit theorem applied on `habitsSheetW` at day index 2
(streak 2, base 5): weighted score 5 * 1.1^2 = 6.05 = 121/20 lands in the
Summary positive column, today's count becomes 1 and the total 8. -/
theorem habit_streak_weighted_record_witness :
    (recordHabitDone "20241218" 2 habitsSheetW emptySummaryW 1 4).performed = true
    ∧ (recordHabitDone "20241218" 2 habitsSheetW emptySummaryW 1 4).streak = 2
    ∧ (recordHabitDone "20241218" 2 habitsSheetW emptySummaryW 1 4).weightedScore = 121 / 20
    ∧ (recordHabitDone "20241218" 2 habitsSheetW emptySummaryW 1 4).habits.cells 6 4
        = CellVal.num 1
    ∧ (recordHabitDone "20241218" 2 habitsSheetW emptySummaryW 1 4).habits.cells 18 4
        = CellVal.num 8
    ∧ (recordHabitDone "20241218" 2 habitsSheetW emptySummaryW 1 4).summary.posCol 2
        = CellVal.num (121 / 20) := by
  have hk : habitStreak (fun d => habitsSheetW.cells (4 + d) 4) 2 = 2 := by decide
  have h := habit_streak_weighted_record "20241218" 2 habitsSheetW emptySummaryW 1 4 2 5
    (by decide) (by decide) (by decide) (by decide) (by norm_num)
  have hrow : (summaryFindRow "20241218" 1 emptySummaryW).getD (1 + 1) = 2 := by decide
  refine ⟨h.1, ?_, ?_, ?_, ?_, ?_⟩
  · rw [h.2.1, hk]
  · rw [h.2.2.1, hk]
    norm_num
  · refine h.2.2.2.1.trans ?_
    norm_num [jsParseIntOr, jsParseIntVal, habitsSheetW]
  · refine h.2.2.2.2.1.trans ?_
    norm_num [jsParseIntOr, jsParseIntVal, ratTrunc, habitsSheetW]
  · have h6 := h.2.2.2.2.2.1
    rw [hrow] at h6
    refine h6.trans ?_
    rw [hk]
    norm_num [jsParseFloatOr, jsParseFloatVal, emptySummaryW]

/-- A Habits sheet: row 4 is "Read" with a non-numeric base-score cell, one
completion on day 0. -/
def habitsSheetC10 : HabitsSheet :=
  ⟨fun c r =>
    if c = 1 ∧ r = 4 then CellVal.str "Read"
    else if c = 3 ∧ r = 4 then CellVal.str "n/a"
    else if c = 4 ∧ r = 4 then CellVal.num 1
    else CellVal.empty,
   fun _ _ => none⟩

/-- C10 witness: the default-base theorem applied on `habitsSheetC10` at day
index 1 (streak 1): weighted score 1.1, day count 1 and total 1. -/
theorem habit_missing_base_score_default_witness :
    (recordHabitDone "20241218" 1 habitsSheetC10 emptySummaryW 1 4).performed = true
    ∧ (recordHabitDone "20241218" 1 habitsSheetC10 emptySummaryW 1 4).weightedScore = 11 / 10
    ∧ (recordHabitDone "20241218" 1 habitsSheetC10 emptySummaryW 1 4).habits.cells 5 4
        = CellVal.num 1
    ∧ (recordHabitDone "20241218" 1 habitsSheetC10 emptySummaryW 1 4).habits.cells 18 4
        = CellVal.num 1 := by
  have hk : habitStreak (fun d => habitsSheetC10.cells (4 + d) 4) 1 = 1 := by decide
  have h := habit_missing_base_score_default "20241218" 1 habitsSheetC10 emptySummaryW 1 4 1
    (by decide) (by decide) (by decide) (by decide)
  refine ⟨h.1, ?_, ?_, ?_⟩
  · rw [h.2.1, hk]
    norm_num
  · refine h.2.2.1.trans ?_
    norm_num [jsParseIntOr, jsParseIntVal, habitsSheetC10]
  · refine h.2.2.2.trans ?_
    norm_num [jsParseIntOr, jsParseIntVal, habitsSheetC10]
